import Mathlib

/-!
Shallow embedding of the MaxRects bin-packing engine of the
SpritesheetGenerator repository (files `Rect.h` and `MaxRectsBinPack.cpp`,
namespace `rbp`).

C++ `int` values are modelled as `Int`; `std::numeric_limits<int>::max()`
is the explicit constant `intMax`.  The `std::vector` collections are
modelled as `List`s; the in-place erase/push_back loops of the source are
modelled by structurally recursive functions whose result is the final
content of the vector.  All definitions are executable.
-/

namespace rbp

/-- `Rect` from `Rect.h`: integer x, y, width, height. -/
structure Rect where
  x : Int
  y : Int
  width : Int
  height : Int
deriving DecidableEq, Repr

/-- `RectSize` from `Rect.h`: a pending request, pre-placement. -/
structure RectSize where
  width : Int
  height : Int
deriving DecidableEq, Repr

/-- `MaxRectsBinPack::FreeRectChoiceHeuristic`. -/
inductive FreeRectChoiceHeuristic where
  | RectBestShortSideFit
  | RectBestLongSideFit
  | RectBestAreaFit
  | RectBottomLeftRule
  | RectContactPointRule
deriving DecidableEq, Repr

/-- `std::numeric_limits<int>::max()`. -/
def intMax : Int := 2147483647

/-- Modelled from the spec: `containedIn(a, b)` is "true if `a` lies
entirely within `b`" (section 4.1).  The function `isContainedIn` is
declared in `Rect.h` but its defining translation unit (`Rect.cpp`) is
not part of the source tree. -/
def isContainedIn (a b : Rect) : Prop :=
  b.x ≤ a.x ∧ b.y ≤ a.y ∧
  a.x + a.width ≤ b.x + b.width ∧ a.y + a.height ≤ b.y + b.height

instance (a b : Rect) : Decidable (isContainedIn a b) := by
  unfold isContainedIn; infer_instance

/-- `DisjointRectCollection::disjoint(a, b)` from `Rect.h` (the static
separating-axis test). -/
def rectsDisjoint (a b : Rect) : Prop :=
  a.x + a.width ≤ b.x ∨ b.x + b.width ≤ a.x ∨
  a.y + a.height ≤ b.y ∨ b.y + b.height ≤ a.y

instance (a b : Rect) : Decidable (rectsDisjoint a b) := by
  unfold rectsDisjoint; infer_instance

/-- The packer state: bin dimensions plus the used and free rectangle
collections (`MaxRectsBinPack` member data). -/
structure MaxRectsBinPack where
  binWidth : Int
  binHeight : Int
  usedRectangles : List Rect
  freeRectangles : List Rect
deriving DecidableEq, Repr

/-- `MaxRectsBinPack::init`: store the bin dimensions, clear the used
list and reset the free list to the single full-bin rectangle. -/
def init (width height : Int) : MaxRectsBinPack :=
  { binWidth := width
    binHeight := height
    usedRectangles := []
    freeRectangles := [{ x := 0, y := 0, width := width, height := height }] }

/-- Loop body of `findPositionForNewNodeBestShortSideFit`: one free
rectangle is tested in the upright and then the flipped orientation
against the accumulator `(bestNode, bestShortSideFit, bestLongSideFit)`. -/
def bssfStep (width height : Int) (acc : Rect × Int × Int) (f : Rect) : Rect × Int × Int :=
  let acc1 :=
    if width ≤ f.width ∧ height ≤ f.height then
      let shortSideFit := min |f.width - width| |f.height - height|
      let longSideFit := max |f.width - width| |f.height - height|
      if shortSideFit < acc.2.1 ∨ (shortSideFit = acc.2.1 ∧ longSideFit < acc.2.2) then
        (⟨f.x, f.y, width, height⟩, shortSideFit, longSideFit)
      else acc
    else acc
  if height ≤ f.width ∧ width ≤ f.height then
    let flippedShortSideFit := min |f.width - height| |f.height - width|
    let flippedLongSideFit := max |f.width - height| |f.height - width|
    if flippedShortSideFit < acc1.2.1 ∨
        (flippedShortSideFit = acc1.2.1 ∧ flippedLongSideFit < acc1.2.2) then
      (⟨f.x, f.y, height, width⟩, flippedShortSideFit, flippedLongSideFit)
    else acc1
  else acc1

/-- `MaxRectsBinPack::findPositionForNewNodeBestShortSideFit`; the result
packs the returned rectangle with the two out-parameters
`(bestShortSideFit, bestLongSideFit)`. -/
def findPositionForNewNodeBestShortSideFit (p : MaxRectsBinPack) (width height : Int) :
    Rect × Int × Int :=
  p.freeRectangles.foldl (bssfStep width height) (⟨0, 0, 0, 0⟩, intMax, intMax)

/-- Loop body of `findPositionForNewNodeBestLongSideFit` (primary key is
the long-side leftover, tie-break the short side). -/
def blsfStep (width height : Int) (acc : Rect × Int × Int) (f : Rect) : Rect × Int × Int :=
  let acc1 :=
    if width ≤ f.width ∧ height ≤ f.height then
      let shortSideFit := min |f.width - width| |f.height - height|
      let longSideFit := max |f.width - width| |f.height - height|
      if longSideFit < acc.2.2 ∨ (longSideFit = acc.2.2 ∧ shortSideFit < acc.2.1) then
        (⟨f.x, f.y, width, height⟩, shortSideFit, longSideFit)
      else acc
    else acc
  if height ≤ f.width ∧ width ≤ f.height then
    let shortSideFit := min |f.width - height| |f.height - width|
    let longSideFit := max |f.width - height| |f.height - width|
    if longSideFit < acc1.2.2 ∨ (longSideFit = acc1.2.2 ∧ shortSideFit < acc1.2.1) then
      (⟨f.x, f.y, height, width⟩, shortSideFit, longSideFit)
    else acc1
  else acc1

/-- `MaxRectsBinPack::findPositionForNewNodeBestLongSideFit`; the result
packs `(bestShortSideFit, bestLongSideFit)` in that parameter order. -/
def findPositionForNewNodeBestLongSideFit (p : MaxRectsBinPack) (width height : Int) :
    Rect × Int × Int :=
  p.freeRectangles.foldl (blsfStep width height) (⟨0, 0, 0, 0⟩, intMax, intMax)

/-- Loop body of `findPositionForNewNodeBestAreaFit`; `areaFit` is
computed once per free rectangle, before the orientation guards, exactly
as in the source. -/
def bafStep (width height : Int) (acc : Rect × Int × Int) (f : Rect) : Rect × Int × Int :=
  let areaFit := f.width * f.height - width * height
  let acc1 :=
    if width ≤ f.width ∧ height ≤ f.height then
      let shortSideFit := min |f.width - width| |f.height - height|
      if areaFit < acc.2.1 ∨ (areaFit = acc.2.1 ∧ shortSideFit < acc.2.2) then
        (⟨f.x, f.y, width, height⟩, areaFit, shortSideFit)
      else acc
    else acc
  if height ≤ f.width ∧ width ≤ f.height then
    let shortSideFit := min |f.width - height| |f.height - width|
    if areaFit < acc1.2.1 ∨ (areaFit = acc1.2.1 ∧ shortSideFit < acc1.2.2) then
      (⟨f.x, f.y, height, width⟩, areaFit, shortSideFit)
    else acc1
  else acc1

/-- `MaxRectsBinPack::findPositionForNewNodeBestAreaFit`; the result
packs `(bestAreaFit, bestShortSideFit)`. -/
def findPositionForNewNodeBestAreaFit (p : MaxRectsBinPack) (width height : Int) :
    Rect × Int × Int :=
  p.freeRectangles.foldl (bafStep width height) (⟨0, 0, 0, 0⟩, intMax, intMax)

/-- Loop body of `findPositionForNewNodeBottomLeft`; the accumulator
carries `(bestNode, bestY, bestX)`. -/
def blStep (width height : Int) (acc : Rect × Int × Int) (f : Rect) : Rect × Int × Int :=
  let acc1 :=
    if width ≤ f.width ∧ height ≤ f.height then
      let topSideY := f.y + height
      if topSideY < acc.2.1 ∨ (topSideY = acc.2.1 ∧ f.x < acc.2.2) then
        (⟨f.x, f.y, width, height⟩, topSideY, f.x)
      else acc
    else acc
  if height ≤ f.width ∧ width ≤ f.height then
    let topSideY := f.y + width
    if topSideY < acc1.2.1 ∨ (topSideY = acc1.2.1 ∧ f.x < acc1.2.2) then
      (⟨f.x, f.y, height, width⟩, topSideY, f.x)
    else acc1
  else acc1

/-- `MaxRectsBinPack::findPositionForNewNodeBottomLeft`; the result packs
`(bestY, bestX)`. -/
def findPositionForNewNodeBottomLeft (p : MaxRectsBinPack) (width height : Int) :
    Rect × Int × Int :=
  p.freeRectangles.foldl (blStep width height) (⟨0, 0, 0, 0⟩, intMax, intMax)

/-- `commonIntervalLength`: 0 if the two intervals are disjoint, the
length of their overlap otherwise. -/
def commonIntervalLength (i1Start i1End i2Start i2End : Int) : Int :=
  if i1End < i2Start ∨ i2End < i1Start then 0
  else min i1End i2End - max i1Start i2Start

/-- `MaxRectsBinPack::contactPointScoreNode`: bin-edge contributions
(one per axis, under a disjunctive flush test) plus, for every used
rectangle, the shared-edge overlap contributions. -/
def contactPointScoreNode (p : MaxRectsBinPack) (x y width height : Int) : Int :=
  let score0 :=
    (if x = 0 ∨ x + width = p.binWidth then height else 0) +
    (if y = 0 ∨ y + height = p.binHeight then width else 0)
  p.usedRectangles.foldl (fun score u =>
    let score1 :=
      if u.x = x + width ∨ u.x + u.width = x then
        score + commonIntervalLength u.y (u.y + u.height) y (y + height)
      else score
    if u.y = y + height ∨ u.y + u.height = y then
      score1 + commonIntervalLength u.x (u.x + u.width) x (x + width)
    else score1) score0

/-- Loop body of `findPositionForNewNodeContactPoint`; the accumulator
carries `(bestNode, contactScore)`. -/
def cpStep (p : MaxRectsBinPack) (width height : Int) (acc : Rect × Int) (f : Rect) :
    Rect × Int :=
  let acc1 :=
    if width ≤ f.width ∧ height ≤ f.height then
      let score := contactPointScoreNode p f.x f.y width height
      if acc.2 < score then (⟨f.x, f.y, width, height⟩, score) else acc
    else acc
  if height ≤ f.width ∧ width ≤ f.height then
    let score := contactPointScoreNode p f.x f.y height width
    if acc1.2 < score then (⟨f.x, f.y, height, width⟩, score) else acc1
  else acc1

/-- `MaxRectsBinPack::findPositionForNewNodeContactPoint`; the result
packs the returned rectangle with the out-parameter `contactScore`
(initialised to `-1`). -/
def findPositionForNewNodeContactPoint (p : MaxRectsBinPack) (width height : Int) :
    Rect × Int :=
  p.freeRectangles.foldl (cpStep p width height) (⟨0, 0, 0, 0⟩, -1)

/-- `MaxRectsBinPack::splitFreeNode`: the boolean tells whether the used
node intersects the free node (and hence whether the caller erases the
free node); the list holds the residual rectangles the call pushes onto
`freeRectangles`, in push order. -/
def splitFreeNode (freeNode usedNode : Rect) : Bool × List Rect :=
  if usedNode.x ≥ freeNode.x + freeNode.width ∨ usedNode.x + usedNode.width ≤ freeNode.x ∨
      usedNode.y ≥ freeNode.y + freeNode.height ∨ usedNode.y + usedNode.height ≤ freeNode.y then
    (false, [])
  else
    let l1 :=
      if usedNode.x < freeNode.x + freeNode.width ∧ freeNode.x < usedNode.x + usedNode.width then
        (if freeNode.y < usedNode.y ∧ usedNode.y < freeNode.y + freeNode.height then
          [{ freeNode with height := usedNode.y - freeNode.y }]
        else []) ++
        (if usedNode.y + usedNode.height < freeNode.y + freeNode.height then
          [{ freeNode with
              y := usedNode.y + usedNode.height
              height := freeNode.y + freeNode.height - (usedNode.y + usedNode.height) }]
        else [])
      else []
    let l2 :=
      if usedNode.y < freeNode.y + freeNode.height ∧ freeNode.y < usedNode.y + usedNode.height then
        (if freeNode.x < usedNode.x ∧ usedNode.x < freeNode.x + freeNode.width then
          [{ freeNode with width := usedNode.x - freeNode.x }]
        else []) ++
        (if usedNode.x + usedNode.width < freeNode.x + freeNode.width then
          [{ freeNode with
              x := usedNode.x + usedNode.width
              width := freeNode.x + freeNode.width - (usedNode.x + usedNode.width) }]
        else [])
      else []
    (true, l1 ++ l2)

/-- The erase/append loop over the free list run by `insert` and
`placeRect`: each original entry is tested once with `splitFreeNode`;
split entries are erased and their residuals pushed at the back.
The pair separates the surviving originals from the pushed residuals. -/
def splitPass (usedNode : Rect) : List Rect → List Rect × List Rect
  | [] => ([], [])
  | f :: rest =>
    let s := splitFreeNode f usedNode
    let r := splitPass usedNode rest
    if s.1 then (r.1, s.2 ++ r.2) else (f :: r.1, r.2)

/-- Final content of `freeRectangles` after the split loop: surviving
originals in order, then all pushed residuals. -/
def applySplit (l : List Rect) (usedNode : Rect) : List Rect :=
  (splitPass usedNode l).1 ++ (splitPass usedNode l).2

/-- Inner loop of `pruneFreeList` for a fixed outer element `x` against
the rectangles after it.  Result: `true` with the processed tail if `x`
survives the pass, `false` with the tail at the moment of the break if
`x` is erased because it is contained in a later rectangle.  Later
rectangles contained in `x` are erased along the way. -/
def innerStep (x : Rect) : List Rect → Bool × List Rect
  | [] => (true, [])
  | y :: ys =>
    if isContainedIn x y then (false, y :: ys)
    else if isContainedIn y x then innerStep x ys
    else
      let r := innerStep x ys
      (r.1, y :: r.2)

theorem innerStep_length (x : Rect) : ∀ l : List Rect, (innerStep x l).2.length ≤ l.length := by
  intro l
  induction l with
  | nil => simp [innerStep]
  | cons y ys ih =>
    unfold innerStep
    split
    · simp
    · split
      · exact Nat.le_succ_of_le ih
      · simpa using ih

/-- Outer loop of `pruneFreeList`, fuelled: the fuel is an upper bound
on the number of outer iterations (one unit is spent per head element).
`pruneFreeList` supplies fuel equal to the list length, which by
`innerStep_length` never runs out. -/
def pruneAux : Nat → List Rect → List Rect
  | 0, l => l
  | _ + 1, [] => []
  | n + 1, x :: xs =>
    let r := innerStep x xs
    if r.1 then x :: pruneAux n r.2 else pruneAux n r.2

/-- `MaxRectsBinPack::pruneFreeList`: the pairwise containment scan. -/
def pruneFreeList (l : List Rect) : List Rect := pruneAux l.length l

/-- The `switch (method)` of `MaxRectsBinPack::insert(width, height,
method)`: the node chosen by the selected heuristic (the scores are
discarded there). -/
def chooseNode (p : MaxRectsBinPack) (width height : Int) (method : FreeRectChoiceHeuristic) :
    Rect :=
  match method with
  | .RectBestShortSideFit => (findPositionForNewNodeBestShortSideFit p width height).1
  | .RectBottomLeftRule => (findPositionForNewNodeBottomLeft p width height).1
  | .RectContactPointRule => (findPositionForNewNodeContactPoint p width height).1
  | .RectBestLongSideFit => (findPositionForNewNodeBestLongSideFit p width height).1
  | .RectBestAreaFit => (findPositionForNewNodeBestAreaFit p width height).1

/-- `MaxRectsBinPack::insert(width, height, method)`: returns the chosen
node together with the updated packer state.  On a zero-height node the
state is returned untouched; otherwise the free list is split against
the node and pruned, and the node is appended to the used list. -/
def insert (p : MaxRectsBinPack) (width height : Int) (method : FreeRectChoiceHeuristic) :
    Rect × MaxRectsBinPack :=
  let newNode := chooseNode p width height method
  if newNode.height = 0 then (newNode, p)
  else
    (newNode,
      { p with
          freeRectangles := pruneFreeList (applySplit p.freeRectangles newNode)
          usedRectangles := p.usedRectangles ++ [newNode] })

/-- `MaxRectsBinPack::placeRect`: split, prune, append (no `dst` write —
the `dst.push_back(bestNode)` line of the source is commented out). -/
def placeRect (p : MaxRectsBinPack) (node : Rect) : MaxRectsBinPack :=
  { p with
      freeRectangles := pruneFreeList (applySplit p.freeRectangles node)
      usedRectangles := p.usedRectangles ++ [node] }

/-- `MaxRectsBinPack::scoreRect`: the chosen node plus `(score1, score2)`,
with the ContactPoint score negated and both scores forced to `intMax`
when the node cannot be placed. -/
def scoreRect (p : MaxRectsBinPack) (width height : Int) (method : FreeRectChoiceHeuristic) :
    Rect × Int × Int :=
  let r :=
    match method with
    | .RectBestShortSideFit => findPositionForNewNodeBestShortSideFit p width height
    | .RectBottomLeftRule => findPositionForNewNodeBottomLeft p width height
    | .RectContactPointRule =>
      let c := findPositionForNewNodeContactPoint p width height
      (c.1, -c.2, intMax)
    | .RectBestLongSideFit =>
      let b := findPositionForNewNodeBestLongSideFit p width height
      (b.1, b.2.2, b.2.1)
    | .RectBestAreaFit => findPositionForNewNodeBestAreaFit p width height
  if r.1.height = 0 then (r.1, intMax, intMax) else r

/-- Selection scan of the batch `insert`: carries
`(bestScore1, bestScore2, bestIndex/bestNode)` over the pending sizes,
with `none` standing for the initial `bestRectIndex = -1`. -/
def selectAux (p : MaxRectsBinPack) (method : FreeRectChoiceHeuristic) :
    List RectSize → Nat → Int × Int × Option (Nat × Rect) → Int × Int × Option (Nat × Rect)
  | [], _, acc => acc
  | r :: rest, i, acc =>
    let s := scoreRect p r.width r.height method
    if s.2.1 < acc.1 ∨ (s.2.1 = acc.1 ∧ s.2.2 < acc.2.1) then
      selectAux p method rest (i + 1) (s.2.1, s.2.2, some (i, s.1))
    else
      selectAux p method rest (i + 1) acc

/-- One round of the batch `insert`: score every pending size against
the current state and return the best (score1, score2, index, node), or
`none` when no pending size can be placed. -/
def selectBest (p : MaxRectsBinPack) (method : FreeRectChoiceHeuristic)
    (rects : List RectSize) : Int × Int × Option (Nat × Rect) :=
  selectAux p method rects 0 (intMax, intMax, none)

/-- The `while (!rects.empty())` loop of the batch `insert`, fuelled by
the initial number of pending sizes (each committed round erases one
pending size, so that fuel suffices). -/
def insertBatchLoop (method : FreeRectChoiceHeuristic) :
    Nat → MaxRectsBinPack → List RectSize → MaxRectsBinPack × List RectSize
  | 0, p, rects => (p, rects)
  | n + 1, p, rects =>
    if rects.isEmpty then (p, rects)
    else
      match selectBest p method rects with
      | (_, _, none) => (p, rects)
      | (_, _, some (i, node)) => insertBatchLoop method n (placeRect p node) (rects.eraseIdx i)

/-- `MaxRectsBinPack::insert(rects, dst, method)` (batch mode): clears
`dst`, then greedily commits best-scoring pending sizes.  Returns the
final packer state, the pending sizes left unpacked, and the final
content of `dst`. -/
def insertBatch (p : MaxRectsBinPack) (rects : List RectSize) (_dst0 : List Rect)
    (method : FreeRectChoiceHeuristic) : MaxRectsBinPack × List RectSize × List Rect :=
  let r := insertBatchLoop method rects.length p rects
  (r.1, r.2, ([] : List Rect))

/-- One requested single-rectangle insertion. -/
structure InsertCall where
  width : Int
  height : Int
  method : FreeRectChoiceHeuristic
deriving Repr

/-- Run a sequence of single-rectangle `insert` calls, returning the
final packer state. -/
def runInserts (p : MaxRectsBinPack) (calls : List InsertCall) : MaxRectsBinPack :=
  calls.foldl (fun q c => (insert q c.width c.height c.method).2) p

/-- Run a sequence of single-rectangle `insert` calls, returning the
rectangles the calls returned, in order. -/
def insertTrace (p : MaxRectsBinPack) (calls : List InsertCall) : List Rect :=
  (calls.foldl (fun (acc : MaxRectsBinPack × List Rect) c =>
    let r := insert acc.1 c.width c.height c.method
    (r.2, acc.2 ++ [r.1])) (p, [])).2

/-! ### Geometry lemmas -/

theorem rectsDisjoint_symm {a b : Rect} (h : rectsDisjoint a b) : rectsDisjoint b a := by
  unfold rectsDisjoint at *; tauto

theorem isContainedIn_trans {a b c : Rect} (h1 : isContainedIn a b) (h2 : isContainedIn b c) :
    isContainedIn a c := by
  unfold isContainedIn at *; omega

theorem contained_disjoint {a f u : Rect} (h1 : isContainedIn a f) (h2 : rectsDisjoint f u) :
    rectsDisjoint a u := by
  unfold isContainedIn at h1; unfold rectsDisjoint at *; omega

/-- A rectangle lies inside the bin `[0, bw] × [0, bh]`. -/
def InBin (bw bh : Int) (r : Rect) : Prop :=
  0 ≤ r.x ∧ 0 ≤ r.y ∧ r.x + r.width ≤ bw ∧ r.y + r.height ≤ bh

instance (bw bh : Int) (r : Rect) : Decidable (InBin bw bh r) := by
  unfold InBin; infer_instance

theorem contained_inBin {bw bh : Int} {r f : Rect} (h1 : isContainedIn r f)
    (h2 : InBin bw bh f) : InBin bw bh r := by
  unfold isContainedIn at h1; unfold InBin at *; omega

/-! ### Fit predicates for one requested size against one free rectangle -/

/-- The upright-orientation qualification test of every scorer:
`freeRect.width >= width && freeRect.height >= height`. -/
def UpFit (w h : Int) (f : Rect) : Prop := w ≤ f.width ∧ h ≤ f.height

instance (w h : Int) (f : Rect) : Decidable (UpFit w h f) := by
  unfold UpFit; infer_instance

/-- The flipped-orientation qualification test:
`freeRect.width >= height && freeRect.height >= width`. -/
def FlipFit (w h : Int) (f : Rect) : Prop := h ≤ f.width ∧ w ≤ f.height

instance (w h : Int) (f : Rect) : Decidable (FlipFit w h f) := by
  unfold FlipFit; infer_instance

/-- The free rectangle accommodates the request in some orientation. -/
def Fits (w h : Int) (f : Rect) : Prop := UpFit w h f ∨ FlipFit w h f

instance (w h : Int) (f : Rect) : Decidable (Fits w h f) := by
  unfold Fits; infer_instance

/-- The node a scorer may build from free rectangle `f` for request
`(w, h)`: anchored at the corner of `f`, in one of the two orientations,
with the matching qualification test. -/
def NodeFrom (w h : Int) (n f : Rect) : Prop :=
  (n = ⟨f.x, f.y, w, h⟩ ∧ UpFit w h f) ∨ (n = ⟨f.x, f.y, h, w⟩ ∧ FlipFit w h f)

theorem nodeFrom_contained {w h : Int} {n f : Rect} (hn : NodeFrom w h n f) :
    isContainedIn n f := by
  rcases hn with ⟨rfl, h1, h2⟩ | ⟨rfl, h1, h2⟩ <;> exact ⟨le_refl _, le_refl _, by simpa, by simpa⟩

/-- Dimension bound under which every heuristic score stays strictly
below `intMax` (no 32-bit overflow in the C++ source). -/
def Bounded (f : Rect) : Prop :=
  f.x ≤ 32768 ∧ f.y ≤ 32768 ∧ f.width ≤ 32768 ∧ f.height ≤ 32768

instance (f : Rect) : Decidable (Bounded f) := by
  unfold Bounded; infer_instance

/-! ### Generic lemmas about scorer folds -/

theorem foldl_acc_sound {α : Type} (step : α → Rect → α) (Q : α → Rect → Prop)
    (hstep : ∀ acc f, step acc f = acc ∨ Q (step acc f) f) :
    ∀ (l : List Rect) (acc : α),
      l.foldl step acc = acc ∨ ∃ f ∈ l, Q (l.foldl step acc) f := by
  intro l
  induction l with
  | nil => intro acc; left; rfl
  | cons f rest ih =>
    intro acc
    rw [List.foldl_cons]
    rcases ih (step acc f) with h1 | ⟨g, hg, h2⟩
    · rcases hstep acc f with h2 | h2
      · left; rw [h1, h2]
      · right; exact ⟨f, List.mem_cons_self f rest, by rw [h1]; exact h2⟩
    · right; exact ⟨g, List.mem_cons_of_mem f hg, h2⟩

theorem foldl_keep {α : Type} (step : α → Rect → α) (P : α → Prop)
    (hstep : ∀ acc f, P acc → P (step acc f)) :
    ∀ (l : List Rect) (acc : α), P acc → P (l.foldl step acc) := by
  intro l
  induction l with
  | nil => intro acc h; exact h
  | cons f rest ih => intro acc h; rw [List.foldl_cons]; exact ih _ (hstep acc f h)

theorem foldl_nofit {α : Type} (step : α → Rect → α) (w h : Int)
    (hstep : ∀ acc f, ¬ Fits w h f → step acc f = acc) :
    ∀ (l : List Rect) (acc : α), (∀ f ∈ l, ¬ Fits w h f) → l.foldl step acc = acc := by
  intro l
  induction l with
  | nil => intro acc _; rfl
  | cons f rest ih =>
    intro acc hl
    rw [List.foldl_cons, hstep acc f (hl f (List.mem_cons_self f rest))]
    exact ih acc fun g hg => hl g (List.mem_cons_of_mem f hg)

theorem foldl_progress {α : Type} (step : α → Rect → α) (node : α → Rect) (w h : Int)
    (Maxed : α → Prop)
    (h1 : ∀ acc f, ¬ Fits w h f → step acc f = acc)
    (h2 : ∀ acc f, Bounded f → Fits w h f → Maxed acc → (node (step acc f)).height ≠ 0)
    (h3 : ∀ acc f, (node acc).height ≠ 0 → (node (step acc f)).height ≠ 0) :
    ∀ (l : List Rect) (acc : α), (∀ f ∈ l, Bounded f) → Maxed acc →
      (∃ f ∈ l, Fits w h f) → (node (l.foldl step acc)).height ≠ 0 := by
  intro l
  induction l with
  | nil => intro acc _ _ hex; simp at hex
  | cons f rest ih =>
    intro acc hb hm hex
    rw [List.foldl_cons]
    by_cases hf : Fits w h f
    · exact foldl_keep step (fun a => (node a).height ≠ 0) h3 rest _
        (h2 acc f (hb f (List.mem_cons_self f rest)) hf hm)
    · rw [h1 acc f hf]
      rcases hex with ⟨g, hg, hgfit⟩
      rcases List.mem_cons.mp hg with rfl | hg'
      · exact absurd hgfit hf
      · exact ih acc (fun x hx => hb x (List.mem_cons_of_mem f hx)) hm ⟨g, hg', hgfit⟩

/-! ### BestShortSideFit step lemmas -/

theorem bssfStep_cases (w h : Int) (acc : Rect × Int × Int) (f : Rect) :
    bssfStep w h acc f = acc ∨
    ((bssfStep w h acc f).1 = ⟨f.x, f.y, w, h⟩ ∧ UpFit w h f) ∨
    ((bssfStep w h acc f).1 = ⟨f.x, f.y, h, w⟩ ∧ FlipFit w h f) := by
  simp only [bssfStep, UpFit, FlipFit]
  split_ifs <;> simp_all

theorem bssfStep_nofit (w h : Int) (acc : Rect × Int × Int) (f : Rect)
    (hf : ¬ Fits w h f) : bssfStep w h acc f = acc := by
  have h1 : ¬(w ≤ f.width ∧ h ≤ f.height) := fun hu => hf (Or.inl hu)
  have h2 : ¬(h ≤ f.width ∧ w ≤ f.height) := fun hu => hf (Or.inr hu)
  simp only [bssfStep, if_neg h1, if_neg h2]

theorem bssfStep_keep (w h : Int) (hw : w ≠ 0) (hh : h ≠ 0) (acc : Rect × Int × Int)
    (f : Rect) (ha : acc.1.height ≠ 0) : (bssfStep w h acc f).1.height ≠ 0 := by
  simp only [bssfStep]
  split_ifs <;> simp_all

theorem bssfStep_progress (w h : Int) (hw : 0 < w) (hh : 0 < h) (acc : Rect × Int × Int)
    (f : Rect) (hb : Bounded f) (hf : Fits w h f) (hm : acc.2 = (intMax, intMax)) :
    (bssfStep w h acc f).1.height ≠ 0 := by
  obtain ⟨hbx, hby, hbw, hbh⟩ := hb
  have hm1 : acc.2.1 = intMax := by rw [hm]
  unfold Fits UpFit FlipFit at hf
  rcases hf with hup | hfl
  · obtain ⟨hu1, hu2⟩ := hup
    have e1 : |f.width - w| = f.width - w := abs_of_nonneg (by omega)
    have hlt : min |f.width - w| |f.height - h| < acc.2.1 := by
      rw [hm1, intMax]
      linarith [min_le_left |f.width - w| |f.height - h|, e1]
    simp only [bssfStep, if_pos (And.intro hu1 hu2), if_pos (Or.inl hlt)]
    split_ifs <;> simp <;> omega
  · obtain ⟨hf1, hf2⟩ := hfl
    by_cases hup : w ≤ f.width ∧ h ≤ f.height
    · obtain ⟨hu1, hu2⟩ := hup
      have e1 : |f.width - w| = f.width - w := abs_of_nonneg (by omega)
      have hlt : min |f.width - w| |f.height - h| < acc.2.1 := by
        rw [hm1, intMax]
        linarith [min_le_left |f.width - w| |f.height - h|, e1]
      simp only [bssfStep, if_pos (And.intro hu1 hu2), if_pos (Or.inl hlt)]
      split_ifs <;> simp <;> omega
    · have e1 : |f.width - h| = f.width - h := abs_of_nonneg (by omega)
      have hlt : min |f.width - h| |f.height - w| < acc.2.1 := by
        rw [hm1, intMax]
        linarith [min_le_left |f.width - h| |f.height - w|, e1]
      simp only [bssfStep, if_neg hup, if_pos (And.intro hf1 hf2), if_pos (Or.inl hlt)]
      simp
      omega

/-! ### BestLongSideFit step lemmas -/

theorem blsfStep_cases (w h : Int) (acc : Rect × Int × Int) (f : Rect) :
    blsfStep w h acc f = acc ∨
    ((blsfStep w h acc f).1 = ⟨f.x, f.y, w, h⟩ ∧ UpFit w h f) ∨
    ((blsfStep w h acc f).1 = ⟨f.x, f.y, h, w⟩ ∧ FlipFit w h f) := by
  simp only [blsfStep, UpFit, FlipFit]
  split_ifs <;> simp_all

theorem blsfStep_nofit (w h : Int) (acc : Rect × Int × Int) (f : Rect)
    (hf : ¬ Fits w h f) : blsfStep w h acc f = acc := by
  have h1 : ¬(w ≤ f.width ∧ h ≤ f.height) := fun hu => hf (Or.inl hu)
  have h2 : ¬(h ≤ f.width ∧ w ≤ f.height) := fun hu => hf (Or.inr hu)
  simp only [blsfStep, if_neg h1, if_neg h2]

theorem blsfStep_keep (w h : Int) (hw : w ≠ 0) (hh : h ≠ 0) (acc : Rect × Int × Int)
    (f : Rect) (ha : acc.1.height ≠ 0) : (blsfStep w h acc f).1.height ≠ 0 := by
  simp only [blsfStep]
  split_ifs <;> simp_all

theorem blsfStep_progress (w h : Int) (hw : 0 < w) (hh : 0 < h) (acc : Rect × Int × Int)
    (f : Rect) (hb : Bounded f) (hf : Fits w h f) (hm : acc.2 = (intMax, intMax)) :
    (blsfStep w h acc f).1.height ≠ 0 := by
  obtain ⟨hbx, hby, hbw, hbh⟩ := hb
  have hm2 : acc.2.2 = intMax := by rw [hm]
  unfold Fits UpFit FlipFit at hf
  rcases hf with hup | hfl
  · obtain ⟨hu1, hu2⟩ := hup
    have e1 : |f.width - w| = f.width - w := abs_of_nonneg (by omega)
    have e2 : |f.height - h| = f.height - h := abs_of_nonneg (by omega)
    have hlt : max |f.width - w| |f.height - h| < acc.2.2 := by
      rw [hm2, intMax]
      exact max_lt (by rw [e1]; omega) (by rw [e2]; omega)
    simp only [blsfStep, if_pos (And.intro hu1 hu2), if_pos (Or.inl hlt)]
    split_ifs <;> simp <;> omega
  · obtain ⟨hf1, hf2⟩ := hfl
    by_cases hup : w ≤ f.width ∧ h ≤ f.height
    · obtain ⟨hu1, hu2⟩ := hup
      have e1 : |f.width - w| = f.width - w := abs_of_nonneg (by omega)
      have e2 : |f.height - h| = f.height - h := abs_of_nonneg (by omega)
      have hlt : max |f.width - w| |f.height - h| < acc.2.2 := by
        rw [hm2, intMax]
        exact max_lt (by rw [e1]; omega) (by rw [e2]; omega)
      simp only [blsfStep, if_pos (And.intro hu1 hu2), if_pos (Or.inl hlt)]
      split_ifs <;> simp <;> omega
    · have e1 : |f.width - h| = f.width - h := abs_of_nonneg (by omega)
      have e2 : |f.height - w| = f.height - w := abs_of_nonneg (by omega)
      have hlt : max |f.width - h| |f.height - w| < acc.2.2 := by
        rw [hm2, intMax]
        exact max_lt (by rw [e1]; omega) (by rw [e2]; omega)
      simp only [blsfStep, if_neg hup, if_pos (And.intro hf1 hf2), if_pos (Or.inl hlt)]
      simp
      omega

/-! ### BestAreaFit step lemmas -/

theorem bafStep_cases (w h : Int) (acc : Rect × Int × Int) (f : Rect) :
    bafStep w h acc f = acc ∨
    ((bafStep w h acc f).1 = ⟨f.x, f.y, w, h⟩ ∧ UpFit w h f) ∨
    ((bafStep w h acc f).1 = ⟨f.x, f.y, h, w⟩ ∧ FlipFit w h f) := by
  simp only [bafStep, UpFit, FlipFit]
  split_ifs <;> simp_all

theorem bafStep_nofit (w h : Int) (acc : Rect × Int × Int) (f : Rect)
    (hf : ¬ Fits w h f) : bafStep w h acc f = acc := by
  have h1 : ¬(w ≤ f.width ∧ h ≤ f.height) := fun hu => hf (Or.inl hu)
  have h2 : ¬(h ≤ f.width ∧ w ≤ f.height) := fun hu => hf (Or.inr hu)
  simp only [bafStep, if_neg h1, if_neg h2]

theorem bafStep_keep (w h : Int) (hw : w ≠ 0) (hh : h ≠ 0) (acc : Rect × Int × Int)
    (f : Rect) (ha : acc.1.height ≠ 0) : (bafStep w h acc f).1.height ≠ 0 := by
  simp only [bafStep]
  split_ifs <;> simp_all

theorem bafStep_progress (w h : Int) (hw : 0 < w) (hh : 0 < h) (acc : Rect × Int × Int)
    (f : Rect) (hb : Bounded f) (hf : Fits w h f) (hm : acc.2 = (intMax, intMax)) :
    (bafStep w h acc f).1.height ≠ 0 := by
  obtain ⟨hbx, hby, hbw, hbh⟩ := hb
  have hm1 : acc.2.1 = intMax := by rw [hm]
  have hwh : 0 < w * h := mul_pos hw hh
  unfold Fits UpFit FlipFit at hf
  have hfwpos : 0 < f.width := by rcases hf with ⟨h1, _⟩ | ⟨h1, _⟩ <;> omega
  have hfhpos : 0 < f.height := by rcases hf with ⟨_, h2⟩ | ⟨_, h2⟩ <;> omega
  have hArea : f.width * f.height ≤ 32768 * 32768 :=
    mul_le_mul hbw hbh (by omega) (by omega)
  have hlt : f.width * f.height - w * h < acc.2.1 := by
    rw [hm1, intMax]; nlinarith
  rcases hf with hup | hfl
  · obtain ⟨hu1, hu2⟩ := hup
    simp only [bafStep, if_pos (And.intro hu1 hu2), if_pos (Or.inl hlt)]
    split_ifs <;> simp <;> omega
  · obtain ⟨hf1, hf2⟩ := hfl
    by_cases hup : w ≤ f.width ∧ h ≤ f.height
    · obtain ⟨hu1, hu2⟩ := hup
      simp only [bafStep, if_pos (And.intro hu1 hu2), if_pos (Or.inl hlt)]
      split_ifs <;> simp <;> omega
    · simp only [bafStep, if_neg hup, if_pos (And.intro hf1 hf2), if_pos (Or.inl hlt)]
      simp
      omega

/-! ### BottomLeft step lemmas -/

theorem blStep_cases (w h : Int) (acc : Rect × Int × Int) (f : Rect) :
    blStep w h acc f = acc ∨
    ((blStep w h acc f).1 = ⟨f.x, f.y, w, h⟩ ∧ UpFit w h f) ∨
    ((blStep w h acc f).1 = ⟨f.x, f.y, h, w⟩ ∧ FlipFit w h f) := by
  simp only [blStep, UpFit, FlipFit]
  split_ifs <;> simp_all

theorem blStep_nofit (w h : Int) (acc : Rect × Int × Int) (f : Rect)
    (hf : ¬ Fits w h f) : blStep w h acc f = acc := by
  have h1 : ¬(w ≤ f.width ∧ h ≤ f.height) := fun hu => hf (Or.inl hu)
  have h2 : ¬(h ≤ f.width ∧ w ≤ f.height) := fun hu => hf (Or.inr hu)
  simp only [blStep, if_neg h1, if_neg h2]

theorem blStep_keep (w h : Int) (hw : w ≠ 0) (hh : h ≠ 0) (acc : Rect × Int × Int)
    (f : Rect) (ha : acc.1.height ≠ 0) : (blStep w h acc f).1.height ≠ 0 := by
  simp only [blStep]
  split_ifs <;> simp_all

theorem blStep_progress (w h : Int) (hw : 0 < w) (hh : 0 < h) (acc : Rect × Int × Int)
    (f : Rect) (hb : Bounded f) (hf : Fits w h f) (hm : acc.2 = (intMax, intMax)) :
    (blStep w h acc f).1.height ≠ 0 := by
  obtain ⟨hbx, hby, hbw, hbh⟩ := hb
  have hm1 : acc.2.1 = intMax := by rw [hm]
  unfold Fits UpFit FlipFit at hf
  rcases hf with hup | hfl
  · obtain ⟨hu1, hu2⟩ := hup
    have hlt : f.y + h < acc.2.1 := by rw [hm1, intMax]; omega
    simp only [blStep, if_pos (And.intro hu1 hu2), if_pos (Or.inl hlt)]
    split_ifs <;> simp <;> omega
  · obtain ⟨hf1, hf2⟩ := hfl
    by_cases hup : w ≤ f.width ∧ h ≤ f.height
    · obtain ⟨hu1, hu2⟩ := hup
      have hlt : f.y + h < acc.2.1 := by rw [hm1, intMax]; omega
      simp only [blStep, if_pos (And.intro hu1 hu2), if_pos (Or.inl hlt)]
      split_ifs <;> simp <;> omega
    · have hlt : f.y + w < acc.2.1 := by rw [hm1, intMax]; omega
      simp only [blStep, if_neg hup, if_pos (And.intro hf1 hf2), if_pos (Or.inl hlt)]
      simp
      omega

/-! ### ContactPoint lemmas -/

theorem commonIntervalLength_nonneg (a1 b1 a2 b2 : Int) (h1 : a1 ≤ b1) (h2 : a2 ≤ b2) :
    0 ≤ commonIntervalLength a1 b1 a2 b2 := by
  unfold commonIntervalLength
  split_ifs with hc
  · exact le_refl 0
  · push_neg at hc
    simp only [min_def, max_def]
    split_ifs <;> omega

theorem foldl_keep_mem {α β : Type} (step : α → β → α) (P : α → Prop) :
    ∀ (l : List β), (∀ acc f, f ∈ l → P acc → P (step acc f)) →
      ∀ (acc : α), P acc → P (l.foldl step acc) := by
  intro l
  induction l with
  | nil => intro _ acc h; exact h
  | cons f rest ih =>
    intro hstep acc h
    rw [List.foldl_cons]
    exact ih (fun a g hg => hstep a g (List.mem_cons_of_mem f hg))
      (step acc f) (hstep acc f (List.mem_cons_self f rest) h)

theorem contactPointScoreNode_nonneg (p : MaxRectsBinPack) (x y w h : Int)
    (hw : 0 < w) (hh : 0 < h)
    (hused : ∀ u ∈ p.usedRectangles, 0 ≤ u.width ∧ 0 ≤ u.height) :
    0 ≤ contactPointScoreNode p x y w h := by
  unfold contactPointScoreNode
  apply foldl_keep_mem _ (fun s => 0 ≤ s)
  · intro s u hu hs
    obtain ⟨huw, huh⟩ := hused u hu
    have c1 := commonIntervalLength_nonneg u.y (u.y + u.height) y (y + h)
      (by omega) (by omega)
    have c2 := commonIntervalLength_nonneg u.x (u.x + u.width) x (x + w)
      (by omega) (by omega)
    dsimp only
    split_ifs <;> omega
  · split_ifs <;> omega

theorem cpStep_cases (p : MaxRectsBinPack) (w h : Int) (acc : Rect × Int) (f : Rect) :
    cpStep p w h acc f = acc ∨
    (cpStep p w h acc f = (⟨f.x, f.y, w, h⟩, contactPointScoreNode p f.x f.y w h) ∧
      UpFit w h f) ∨
    (cpStep p w h acc f = (⟨f.x, f.y, h, w⟩, contactPointScoreNode p f.x f.y h w) ∧
      FlipFit w h f) := by
  simp only [cpStep, UpFit, FlipFit]
  split_ifs <;> simp_all

theorem cpStep_nofit (p : MaxRectsBinPack) (w h : Int) (acc : Rect × Int) (f : Rect)
    (hf : ¬ Fits w h f) : cpStep p w h acc f = acc := by
  have h1 : ¬(w ≤ f.width ∧ h ≤ f.height) := fun hu => hf (Or.inl hu)
  have h2 : ¬(h ≤ f.width ∧ w ≤ f.height) := fun hu => hf (Or.inr hu)
  simp only [cpStep, if_neg h1, if_neg h2]

theorem cpStep_keep (p : MaxRectsBinPack) (w h : Int) (hw : w ≠ 0) (hh : h ≠ 0)
    (acc : Rect × Int) (f : Rect) (ha : acc.1.height ≠ 0) :
    (cpStep p w h acc f).1.height ≠ 0 := by
  simp only [cpStep]
  split_ifs <;> simp_all

theorem cpStep_progress (p : MaxRectsBinPack) (w h : Int) (hw : 0 < w) (hh : 0 < h)
    (hused : ∀ u ∈ p.usedRectangles, 0 ≤ u.width ∧ 0 ≤ u.height)
    (acc : Rect × Int) (f : Rect) (hf : Fits w h f) (hm : acc.2 = -1) :
    (cpStep p w h acc f).1.height ≠ 0 := by
  unfold Fits UpFit FlipFit at hf
  rcases hf with hup | hfl
  · obtain ⟨hu1, hu2⟩ := hup
    have hs : 0 ≤ contactPointScoreNode p f.x f.y w h :=
      contactPointScoreNode_nonneg p f.x f.y w h hw hh hused
    have hlt : acc.2 < contactPointScoreNode p f.x f.y w h := by omega
    simp only [cpStep, if_pos (And.intro hu1 hu2), if_pos hlt]
    split_ifs <;> simp <;> omega
  · obtain ⟨hf1, hf2⟩ := hfl
    by_cases hup : w ≤ f.width ∧ h ≤ f.height
    · obtain ⟨hu1, hu2⟩ := hup
      have hs : 0 ≤ contactPointScoreNode p f.x f.y w h :=
        contactPointScoreNode_nonneg p f.x f.y w h hw hh hused
      have hlt : acc.2 < contactPointScoreNode p f.x f.y w h := by omega
      simp only [cpStep, if_pos (And.intro hu1 hu2), if_pos hlt]
      split_ifs <;> simp <;> omega
    · have hs : 0 ≤ contactPointScoreNode p f.x f.y h w :=
        contactPointScoreNode_nonneg p f.x f.y h w hh hw hused
      have hlt : acc.2 < contactPointScoreNode p f.x f.y h w := by omega
      simp only [cpStep, if_neg hup, if_pos (And.intro hf1 hf2), if_pos hlt]
      simp
      omega

/-! ### chooseNode-level lemmas -/

theorem chooseNode_sound (p : MaxRectsBinPack) (w h : Int) (m : FreeRectChoiceHeuristic) :
    chooseNode p w h m = ⟨0, 0, 0, 0⟩ ∨
    ∃ f ∈ p.freeRectangles, NodeFrom w h (chooseNode p w h m) f := by
  cases m
  case RectBestShortSideFit =>
    simp only [chooseNode, findPositionForNewNodeBestShortSideFit]
    rcases foldl_acc_sound (bssfStep w h) (fun a f => NodeFrom w h a.1 f)
        (fun acc f => bssfStep_cases w h acc f) p.freeRectangles
        (⟨0, 0, 0, 0⟩, intMax, intMax) with h1 | ⟨f, hf, h2⟩
    · left; rw [h1]
    · right; exact ⟨f, hf, h2⟩
  case RectBestLongSideFit =>
    simp only [chooseNode, findPositionForNewNodeBestLongSideFit]
    rcases foldl_acc_sound (blsfStep w h) (fun a f => NodeFrom w h a.1 f)
        (fun acc f => blsfStep_cases w h acc f) p.freeRectangles
        (⟨0, 0, 0, 0⟩, intMax, intMax) with h1 | ⟨f, hf, h2⟩
    · left; rw [h1]
    · right; exact ⟨f, hf, h2⟩
  case RectBestAreaFit =>
    simp only [chooseNode, findPositionForNewNodeBestAreaFit]
    rcases foldl_acc_sound (bafStep w h) (fun a f => NodeFrom w h a.1 f)
        (fun acc f => bafStep_cases w h acc f) p.freeRectangles
        (⟨0, 0, 0, 0⟩, intMax, intMax) with h1 | ⟨f, hf, h2⟩
    · left; rw [h1]
    · right; exact ⟨f, hf, h2⟩
  case RectBottomLeftRule =>
    simp only [chooseNode, findPositionForNewNodeBottomLeft]
    rcases foldl_acc_sound (blStep w h) (fun a f => NodeFrom w h a.1 f)
        (fun acc f => blStep_cases w h acc f) p.freeRectangles
        (⟨0, 0, 0, 0⟩, intMax, intMax) with h1 | ⟨f, hf, h2⟩
    · left; rw [h1]
    · right; exact ⟨f, hf, h2⟩
  case RectContactPointRule =>
    simp only [chooseNode, findPositionForNewNodeContactPoint]
    have hstep : ∀ (acc : Rect × Int) (f : Rect),
        cpStep p w h acc f = acc ∨ NodeFrom w h (cpStep p w h acc f).1 f := by
      intro acc f
      rcases cpStep_cases p w h acc f with h1 | ⟨h2, h3⟩ | ⟨h2, h3⟩
      · exact Or.inl h1
      · exact Or.inr (Or.inl ⟨by rw [h2], h3⟩)
      · exact Or.inr (Or.inr ⟨by rw [h2], h3⟩)
    rcases foldl_acc_sound (cpStep p w h) (fun a f => NodeFrom w h a.1 f)
        hstep p.freeRectangles (⟨0, 0, 0, 0⟩, -1) with h1 | ⟨f, hf, h2⟩
    · left; rw [h1]
    · right; exact ⟨f, hf, h2⟩

theorem chooseNode_fail (p : MaxRectsBinPack) (w h : Int) (m : FreeRectChoiceHeuristic)
    (hnone : ∀ f ∈ p.freeRectangles, ¬ Fits w h f) :
    chooseNode p w h m = ⟨0, 0, 0, 0⟩ := by
  cases m
  case RectBestShortSideFit =>
    simp only [chooseNode, findPositionForNewNodeBestShortSideFit]
    rw [foldl_nofit _ w h (fun acc f => bssfStep_nofit w h acc f) _ _ hnone]
  case RectBestLongSideFit =>
    simp only [chooseNode, findPositionForNewNodeBestLongSideFit]
    rw [foldl_nofit _ w h (fun acc f => blsfStep_nofit w h acc f) _ _ hnone]
  case RectBestAreaFit =>
    simp only [chooseNode, findPositionForNewNodeBestAreaFit]
    rw [foldl_nofit _ w h (fun acc f => bafStep_nofit w h acc f) _ _ hnone]
  case RectBottomLeftRule =>
    simp only [chooseNode, findPositionForNewNodeBottomLeft]
    rw [foldl_nofit _ w h (fun acc f => blStep_nofit w h acc f) _ _ hnone]
  case RectContactPointRule =>
    simp only [chooseNode, findPositionForNewNodeContactPoint]
    rw [foldl_nofit _ w h (fun acc f => cpStep_nofit p w h acc f) _ _ hnone]

theorem chooseNode_success (p : MaxRectsBinPack) (w h : Int) (m : FreeRectChoiceHeuristic)
    (hw : 0 < w) (hh : 0 < h)
    (hfree : ∀ f ∈ p.freeRectangles, Bounded f)
    (hused : ∀ u ∈ p.usedRectangles, 0 ≤ u.width ∧ 0 ≤ u.height)
    (hex : ∃ f ∈ p.freeRectangles, Fits w h f) :
    (chooseNode p w h m).height ≠ 0 := by
  cases m
  case RectBestShortSideFit =>
    simp only [chooseNode, findPositionForNewNodeBestShortSideFit]
    exact foldl_progress (bssfStep w h) Prod.fst w h (fun a => a.2 = (intMax, intMax))
      (fun acc f => bssfStep_nofit w h acc f)
      (fun acc f hb hf hm => bssfStep_progress w h hw hh acc f hb hf hm)
      (fun acc f ha => bssfStep_keep w h (by omega) (by omega) acc f ha)
      p.freeRectangles _ hfree rfl hex
  case RectBestLongSideFit =>
    simp only [chooseNode, findPositionForNewNodeBestLongSideFit]
    exact foldl_progress (blsfStep w h) Prod.fst w h (fun a => a.2 = (intMax, intMax))
      (fun acc f => blsfStep_nofit w h acc f)
      (fun acc f hb hf hm => blsfStep_progress w h hw hh acc f hb hf hm)
      (fun acc f ha => blsfStep_keep w h (by omega) (by omega) acc f ha)
      p.freeRectangles _ hfree rfl hex
  case RectBestAreaFit =>
    simp only [chooseNode, findPositionForNewNodeBestAreaFit]
    exact foldl_progress (bafStep w h) Prod.fst w h (fun a => a.2 = (intMax, intMax))
      (fun acc f => bafStep_nofit w h acc f)
      (fun acc f hb hf hm => bafStep_progress w h hw hh acc f hb hf hm)
      (fun acc f ha => bafStep_keep w h (by omega) (by omega) acc f ha)
      p.freeRectangles _ hfree rfl hex
  case RectBottomLeftRule =>
    simp only [chooseNode, findPositionForNewNodeBottomLeft]
    exact foldl_progress (blStep w h) Prod.fst w h (fun a => a.2 = (intMax, intMax))
      (fun acc f => blStep_nofit w h acc f)
      (fun acc f hb hf hm => blStep_progress w h hw hh acc f hb hf hm)
      (fun acc f ha => blStep_keep w h (by omega) (by omega) acc f ha)
      p.freeRectangles _ hfree rfl hex
  case RectContactPointRule =>
    simp only [chooseNode, findPositionForNewNodeContactPoint]
    exact foldl_progress (cpStep p w h) Prod.fst w h (fun a => a.2 = -1)
      (fun acc f => cpStep_nofit p w h acc f)
      (fun acc f _ hf hm => cpStep_progress p w h hw hh hused acc f hf hm)
      (fun acc f ha => cpStep_keep p w h (by omega) (by omega) acc f ha)
      p.freeRectangles _ hfree rfl hex

theorem chooseNode_zero (p : MaxRectsBinPack) (m : FreeRectChoiceHeuristic) :
    (chooseNode p 0 0 m).height = 0 := by
  rcases chooseNode_sound p 0 0 m with h1 | ⟨f, _, h2⟩
  · rw [h1]
  · rcases h2 with ⟨he, _⟩ | ⟨he, _⟩ <;> rw [he]

theorem insert_fst (p : MaxRectsBinPack) (w h : Int) (m : FreeRectChoiceHeuristic) :
    (insert p w h m).1 = chooseNode p w h m := by
  simp only [insert]
  split <;> rfl

/-! ### splitFreeNode and applySplit lemmas -/

theorem splitFreeNode_false_iff (f u : Rect) :
    (splitFreeNode f u).1 = false ↔ rectsDisjoint u f := by
  unfold splitFreeNode rectsDisjoint
  split_ifs with hc <;> simp <;> omega

theorem splitFreeNode_residuals (f u : Rect) :
    ∀ r ∈ (splitFreeNode f u).2, isContainedIn r f ∧ rectsDisjoint r u := by
  unfold splitFreeNode
  split_ifs with hc <;>
    simp_all [isContainedIn, rectsDisjoint, List.forall_mem_append] <;> omega

theorem applySplit_mem (u : Rect) :
    ∀ (l : List Rect) (r : Rect), r ∈ applySplit l u →
      (r ∈ l ∧ (splitFreeNode r u).1 = false) ∨ ∃ f ∈ l, r ∈ (splitFreeNode f u).2 := by
  intro l
  induction l with
  | nil => intro r hr; simp [applySplit, splitPass] at hr
  | cons f rest ih =>
    intro r hr
    unfold applySplit splitPass at hr
    dsimp only at hr
    by_cases hs : (splitFreeNode f u).1 = true
    · rw [if_pos hs] at hr
      simp only [List.mem_append] at hr
      rcases hr with hr | hr | hr
      · rcases ih r (List.mem_append.mpr (Or.inl hr)) with ⟨h1, h2⟩ | ⟨g, hg, h2⟩
        · exact Or.inl ⟨List.mem_cons_of_mem f h1, h2⟩
        · exact Or.inr ⟨g, List.mem_cons_of_mem f hg, h2⟩
      · exact Or.inr ⟨f, List.mem_cons_self f rest, hr⟩
      · rcases ih r (List.mem_append.mpr (Or.inr hr)) with ⟨h1, h2⟩ | ⟨g, hg, h2⟩
        · exact Or.inl ⟨List.mem_cons_of_mem f h1, h2⟩
        · exact Or.inr ⟨g, List.mem_cons_of_mem f hg, h2⟩
    · rw [if_neg hs] at hr
      simp only [List.cons_append, List.mem_cons, List.mem_append] at hr
      rcases hr with rfl | hr | hr
      · exact Or.inl ⟨List.mem_cons_self r rest, Bool.not_eq_true _ ▸ hs⟩
      · rcases ih r (List.mem_append.mpr (Or.inl hr)) with ⟨h1, h2⟩ | ⟨g, hg, h2⟩
        · exact Or.inl ⟨List.mem_cons_of_mem f h1, h2⟩
        · exact Or.inr ⟨g, List.mem_cons_of_mem f hg, h2⟩
      · rcases ih r (List.mem_append.mpr (Or.inr hr)) with ⟨h1, h2⟩ | ⟨g, hg, h2⟩
        · exact Or.inl ⟨List.mem_cons_of_mem f h1, h2⟩
        · exact Or.inr ⟨g, List.mem_cons_of_mem f hg, h2⟩

/-! ### pruneFreeList membership lemmas -/

theorem innerStep_mem (x : Rect) :
    ∀ (l : List Rect) (r : Rect), r ∈ (innerStep x l).2 → r ∈ l := by
  intro l
  induction l with
  | nil => intro r h; simp [innerStep] at h
  | cons y ys ih =>
    intro r
    unfold innerStep
    split_ifs with h1 h2
    · exact fun h => h
    · exact fun h => List.mem_cons_of_mem y (ih r h)
    · dsimp only
      intro h
      rcases List.mem_cons.mp h with rfl | h'
      · exact List.mem_cons_self _ _
      · exact List.mem_cons_of_mem y (ih r h')

theorem pruneAux_subset :
    ∀ (n : Nat) (l : List Rect) (r : Rect), r ∈ pruneAux n l → r ∈ l := by
  intro n
  induction n with
  | zero => intro l r h; simp only [pruneAux] at h; exact h
  | succ n ih =>
    intro l r h
    match l with
    | [] => simp [pruneAux] at h
    | x :: xs =>
      unfold pruneAux at h
      dsimp only at h
      split_ifs at h with hb
      · rcases List.mem_cons.mp h with rfl | h'
        · exact List.mem_cons_self _ _
        · exact List.mem_cons_of_mem x (innerStep_mem x xs r (ih _ r h'))
      · exact List.mem_cons_of_mem x (innerStep_mem x xs r (ih _ r h))

theorem pruneFreeList_subset (l : List Rect) (r : Rect) (h : r ∈ pruneFreeList l) : r ∈ l :=
  pruneAux_subset l.length l r h

/-! ### Packer invariants preserved by insert -/

/-- Every free rectangle is disjoint from every used rectangle. -/
def FreeUsedOk (p : MaxRectsBinPack) : Prop :=
  ∀ f ∈ p.freeRectangles, ∀ u ∈ p.usedRectangles, rectsDisjoint f u

/-- The disjointness invariant of a packer state. -/
def PackInv (p : MaxRectsBinPack) : Prop :=
  FreeUsedOk p ∧ p.usedRectangles.Pairwise rectsDisjoint

/-- Every free rectangle lies inside the bin. -/
def FreeInBin (p : MaxRectsBinPack) : Prop :=
  ∀ f ∈ p.freeRectangles, InBin p.binWidth p.binHeight f

theorem init_inv (w h : Int) : PackInv (init w h) := by
  constructor
  · intro f _ u hu; simp [init] at hu
  · simp [init]

theorem init_freeInBin (w h : Int) : FreeInBin (init w h) := by
  intro f hf
  simp only [init, List.mem_singleton] at hf
  subst hf
  exact ⟨le_refl 0, le_refl 0, by simp [init], by simp [init]⟩

theorem insert_snd (p : MaxRectsBinPack) (w h : Int) (m : FreeRectChoiceHeuristic) :
    (insert p w h m).2 =
      if (chooseNode p w h m).height = 0 then p
      else
        { p with
            freeRectangles := pruneFreeList (applySplit p.freeRectangles (chooseNode p w h m))
            usedRectangles := p.usedRectangles ++ [chooseNode p w h m] } := by
  simp only [insert, apply_ite Prod.snd]

theorem insert_binWidth (p : MaxRectsBinPack) (w h : Int) (m : FreeRectChoiceHeuristic) :
    (insert p w h m).2.binWidth = p.binWidth := by
  rw [insert_snd]; split <;> rfl

theorem insert_binHeight (p : MaxRectsBinPack) (w h : Int) (m : FreeRectChoiceHeuristic) :
    (insert p w h m).2.binHeight = p.binHeight := by
  rw [insert_snd]; split <;> rfl

theorem insert_inv (p : MaxRectsBinPack) (w h : Int) (m : FreeRectChoiceHeuristic)
    (hp : PackInv p) : PackInv (insert p w h m).2 := by
  obtain ⟨hfu, hpw⟩ := hp
  rw [insert_snd]
  split_ifs with hz
  · exact ⟨hfu, hpw⟩
  · have hsound : ∃ f ∈ p.freeRectangles, NodeFrom w h (chooseNode p w h m) f := by
      rcases chooseNode_sound p w h m with h1 | h2
      · exact absurd (by rw [h1]) hz
      · exact h2
    obtain ⟨f0, hf0, hnf⟩ := hsound
    have hnc : isContainedIn (chooseNode p w h m) f0 := nodeFrom_contained hnf
    have hnu : ∀ u ∈ p.usedRectangles, rectsDisjoint (chooseNode p w h m) u :=
      fun u hu => contained_disjoint hnc (hfu f0 hf0 u hu)
    constructor
    · intro g hg u hu
      have hg' := pruneFreeList_subset _ g hg
      have hcases := applySplit_mem (chooseNode p w h m) p.freeRectangles g hg'
      simp only [List.mem_append, List.mem_singleton] at hu
      rcases hcases with ⟨hgl, hgf⟩ | ⟨f1, hf1, hres⟩
      · have hdis_n : rectsDisjoint (chooseNode p w h m) g :=
          (splitFreeNode_false_iff g (chooseNode p w h m)).mp hgf
        rcases hu with hu | rfl
        · exact hfu g hgl u hu
        · exact rectsDisjoint_symm hdis_n
      · obtain ⟨hc, hd⟩ := splitFreeNode_residuals f1 (chooseNode p w h m) g hres
        rcases hu with hu | rfl
        · exact contained_disjoint hc (hfu f1 hf1 u hu)
        · exact hd
    · rw [List.pairwise_append]
      refine ⟨hpw, List.pairwise_singleton _ _, ?_⟩
      intro u hu b hb
      rw [List.mem_singleton] at hb
      subst hb
      exact rectsDisjoint_symm (hnu u hu)

theorem insert_freeInBin (p : MaxRectsBinPack) (w h : Int) (m : FreeRectChoiceHeuristic)
    (hp : FreeInBin p) : FreeInBin (insert p w h m).2 := by
  intro g hg
  rw [insert_binWidth, insert_binHeight]
  rw [insert_snd] at hg
  split_ifs at hg with hz
  · exact hp g hg
  · dsimp only at hg
    have hg' := pruneFreeList_subset _ g hg
    rcases applySplit_mem (chooseNode p w h m) p.freeRectangles g hg' with
      ⟨hgl, _⟩ | ⟨f1, hf1, hres⟩
    · exact hp g hgl
    · exact contained_inBin (splitFreeNode_residuals f1 (chooseNode p w h m) g hres).1
        (hp f1 hf1)

theorem insert_ret_inBin (p : MaxRectsBinPack) (w h : Int) (m : FreeRectChoiceHeuristic)
    (hp : FreeInBin p) (hne : (insert p w h m).1.height ≠ 0) :
    InBin p.binWidth p.binHeight (insert p w h m).1 := by
  rw [insert_fst] at hne ⊢
  rcases chooseNode_sound p w h m with h1 | ⟨f0, hf0, hnf⟩
  · exact absurd (by rw [h1]) hne
  · exact contained_inBin (nodeFrom_contained hnf) (hp f0 hf0)

theorem runInserts_inv (calls : List InsertCall) :
    ∀ (p : MaxRectsBinPack), PackInv p → PackInv (runInserts p calls) := by
  induction calls with
  | nil => intro p hp; exact hp
  | cons c cs ih =>
    intro p hp
    unfold runInserts at *
    rw [List.foldl_cons]
    exact ih _ (insert_inv p c.width c.height c.method hp)

theorem insertTrace_aux (bw bh : Int) :
    ∀ (calls : List InsertCall) (p : MaxRectsBinPack) (racc : List Rect),
      p.binWidth = bw → p.binHeight = bh → FreeInBin p →
      (∀ r ∈ racc, r.height ≠ 0 → InBin bw bh r) →
      ∀ r ∈ (calls.foldl (fun (acc : MaxRectsBinPack × List Rect) c =>
          let t := insert acc.1 c.width c.height c.method
          (t.2, acc.2 ++ [t.1])) (p, racc)).2,
        r.height ≠ 0 → InBin bw bh r := by
  intro calls
  induction calls with
  | nil => intro p racc _ _ _ hacc; exact hacc
  | cons c cs ih =>
    intro p racc hbw hbh hfree hacc
    rw [List.foldl_cons]
    refine ih _ _ ?_ ?_ ?_ ?_
    · rw [insert_binWidth]; exact hbw
    · rw [insert_binHeight]; exact hbh
    · exact insert_freeInBin _ _ _ _ hfree
    · intro r hr hne
      rcases List.mem_append.mp hr with hr' | hr'
      · exact hacc r hr' hne
      · rw [List.mem_singleton] at hr'
        subst hr'
        have hin := insert_ret_inBin p c.width c.height c.method hfree hne
        rw [hbw, hbh] at hin
        exact hin

/-! ### Claim theorems -/

/-- C1: for every packer initialized with positive bin dimensions and
every sequence of single-rectangle insert calls with positive requested
widths and heights, under any of the five heuristics, the rectangles
committed to the used-rectangle list are pairwise disjoint. -/
theorem c1_used_rectangles_pairwise_disjoint (bw bh : Int) (calls : List InsertCall)
    (_hbw : 0 < bw) (_hbh : 0 < bh)
    (_hcalls : ∀ c ∈ calls, 0 < c.width ∧ 0 < c.height) :
    (runInserts (init bw bh) calls).usedRectangles.Pairwise rectsDisjoint :=
  (runInserts_inv calls (init bw bh) (init_inv bw bh)).2

theorem c1_witness :
    (0 : Int) < 4 ∧
    (∀ c ∈ ([⟨2, 2, .RectBestShortSideFit⟩, ⟨2, 2, .RectBestShortSideFit⟩,
        ⟨2, 2, .RectBestShortSideFit⟩] : List InsertCall), 0 < c.width ∧ 0 < c.height) ∧
    (runInserts (init 4 4) [⟨2, 2, .RectBestShortSideFit⟩, ⟨2, 2, .RectBestShortSideFit⟩,
        ⟨2, 2, .RectBestShortSideFit⟩]).usedRectangles.Pairwise rectsDisjoint :=
  ⟨by decide, by decide,
   c1_used_rectangles_pairwise_disjoint 4 4 _ (by decide) (by decide) (by decide)⟩

/-- C2: if the scorer chosen by a single-rectangle insert call returns a
zero-height sentinel, insert returns that sentinel and the packer state
(free-region set and used-rectangle list) is exactly as before: a failed
insertion is a no-op. -/
theorem c2_failed_insert_noop (p : MaxRectsBinPack) (w h : Int)
    (m : FreeRectChoiceHeuristic) (hz : (chooseNode p w h m).height = 0) :
    insert p w h m = (chooseNode p w h m, p) := by
  simp only [insert, if_pos hz]

theorem c2_witness :
    (chooseNode (init 10 10) 12 5 .RectBestShortSideFit).height = 0 ∧
    insert (init 10 10) 12 5 .RectBestShortSideFit =
      (chooseNode (init 10 10) 12 5 .RectBestShortSideFit, init 10 10) :=
  ⟨by decide, c2_failed_insert_noop (init 10 10) 12 5 .RectBestShortSideFit (by decide)⟩

/-- C3: for positive requested dimensions (and free/used rectangles
within the no-overflow bound of the C++ `int` scores), a
single-rectangle insert returns the zero-height sentinel if and only if
no current free region accommodates the request in either the unrotated
or the 90-degree-rotated orientation. -/
theorem c3_sentinel_iff_no_fit (p : MaxRectsBinPack) (w h : Int)
    (m : FreeRectChoiceHeuristic) (hw : 0 < w) (hh : 0 < h)
    (hfree : ∀ f ∈ p.freeRectangles, Bounded f)
    (hused : ∀ u ∈ p.usedRectangles, 0 ≤ u.width ∧ 0 ≤ u.height) :
    (insert p w h m).1.height = 0 ↔ ∀ f ∈ p.freeRectangles, ¬ Fits w h f := by
  rw [insert_fst]
  constructor
  · intro hz f hf hfit
    exact chooseNode_success p w h m hw hh hfree hused ⟨f, hf, hfit⟩ hz
  · intro hnone
    rw [chooseNode_fail p w h m hnone]

theorem c3_witness :
    (0 : Int) < 12 ∧ (0 : Int) < 5 ∧
    (∀ f ∈ (init 10 10).freeRectangles, Bounded f) ∧
    (∀ u ∈ (init 10 10).usedRectangles, 0 ≤ u.width ∧ 0 ≤ u.height) ∧
    ((insert (init 10 10) 12 5 .RectBestShortSideFit).1.height = 0 ↔
      ∀ f ∈ (init 10 10).freeRectangles, ¬ Fits 12 5 f) :=
  ⟨by decide, by decide, by decide, by decide,
   c3_sentinel_iff_no_fit (init 10 10) 12 5 .RectBestShortSideFit
     (by decide) (by decide) (by decide) (by decide)⟩

/-- C4: starting from a positively sized bin, every non-sentinel
rectangle returned over a sequence of insert calls with positive
requested dimensions lies entirely within the bin. -/
theorem c4_placements_within_bin (bw bh : Int) (calls : List InsertCall)
    (_hbw : 0 < bw) (_hbh : 0 < bh)
    (_hcalls : ∀ c ∈ calls, 0 < c.width ∧ 0 < c.height) :
    ∀ r ∈ insertTrace (init bw bh) calls, r.height ≠ 0 →
      0 ≤ r.x ∧ 0 ≤ r.y ∧ r.x + r.width ≤ bw ∧ r.y + r.height ≤ bh := by
  intro r hr hne
  exact insertTrace_aux bw bh calls (init bw bh) [] rfl rfl (init_freeInBin bw bh)
    (by intro r' hr' _; simp at hr') r hr hne

theorem c4_witness :
    (0 : Int) < 10 ∧
    (∀ c ∈ ([⟨2, 3, .RectBestShortSideFit⟩] : List InsertCall),
      0 < c.width ∧ 0 < c.height) ∧
    (⟨0, 0, 2, 3⟩ : Rect) ∈ insertTrace (init 10 10) [⟨2, 3, .RectBestShortSideFit⟩] ∧
    (0 ≤ (⟨0, 0, 2, 3⟩ : Rect).x ∧ 0 ≤ (⟨0, 0, 2, 3⟩ : Rect).y ∧
      (⟨0, 0, 2, 3⟩ : Rect).x + (⟨0, 0, 2, 3⟩ : Rect).width ≤ 10 ∧
      (⟨0, 0, 2, 3⟩ : Rect).y + (⟨0, 0, 2, 3⟩ : Rect).height ≤ 10) :=
  ⟨by decide, by decide, by decide,
   c4_placements_within_bin 10 10 [⟨2, 3, .RectBestShortSideFit⟩]
     (by decide) (by decide) (by decide) ⟨0, 0, 2, 3⟩ (by decide) (by decide)⟩

/-- C10: for every packer and every heuristic, a single-rectangle insert
requesting width 0 and height 0 returns a rectangle with height 0 (the
failure sentinel) and leaves the packer state unchanged, even though
every well-formed free region dimensionally accommodates the degenerate
request. -/
theorem c10_degenerate_insert_noop (p : MaxRectsBinPack) (m : FreeRectChoiceHeuristic) :
    (insert p 0 0 m).1.height = 0 ∧ (insert p 0 0 m).2 = p ∧
    (∀ f ∈ p.freeRectangles, 0 ≤ f.width → 0 ≤ f.height → Fits 0 0 f) := by
  have hz : (chooseNode p 0 0 m).height = 0 := chooseNode_zero p m
  refine ⟨?_, ?_, ?_⟩
  · rw [insert_fst]; exact hz
  · rw [insert_snd, if_pos hz]
  · intro f _ h1 h2; exact Or.inl ⟨h1, h2⟩

theorem c10_witness :
    (insert (init 4 4) 0 0 .RectBottomLeftRule).1.height = 0 ∧
    Fits 0 0 ⟨0, 0, 4, 4⟩ :=
  ⟨(c10_degenerate_insert_noop (init 4 4) .RectBottomLeftRule).1,
   (c10_degenerate_insert_noop (init 4 4) .RectBottomLeftRule).2.2 ⟨0, 0, 4, 4⟩
     (by decide) (by decide) (by decide)⟩

/-- C5 (observed code behaviour): the batch insert commits the pending
2-by-3 size (the pending set empties and the used list receives the
placement), yet the destination placements list comes back empty — the
`dst.push_back(bestNode)` of `placeRect` is commented out in the source,
so the batch call never reports the committed placements. -/
theorem c5_batch_dst_empty :
    (insertBatch (init 10 10) [⟨2, 3⟩] [⟨9, 9, 9, 9⟩] .RectBestShortSideFit).2.2 = [] ∧
    (insertBatch (init 10 10) [⟨2, 3⟩] [⟨9, 9, 9, 9⟩] .RectBestShortSideFit).2.1 = [] ∧
    (insertBatch (init 10 10) [⟨2, 3⟩] [⟨9, 9, 9, 9⟩]
      .RectBestShortSideFit).1.usedRectangles = [⟨0, 0, 2, 3⟩] := by
  decide

/-- C7: for a free rectangle of positive dimensions, the split-and-erase
step keeps a non-intersecting free rectangle unchanged (and reports no
split); for an intersecting used rectangle it removes the free rectangle
and appends exactly the residual slivers above, below, left and right of
the used rectangle, one for each side with positive residual area, each
of positive width and height, at most four in total. -/
theorem c7_split_residuals (f u : Rect) (hfw : 0 < f.width) (hfh : 0 < f.height) :
    ((splitFreeNode f u).1 = false → rectsDisjoint u f ∧ applySplit [f] u = [f]) ∧
    ((splitFreeNode f u).1 = true → ¬ rectsDisjoint u f ∧
      applySplit [f] u = (splitFreeNode f u).2 ∧
      (splitFreeNode f u).2 =
        (if f.y < u.y then [{ f with height := u.y - f.y }] else []) ++
        (if u.y + u.height < f.y + f.height then
          [{ f with y := u.y + u.height, height := f.y + f.height - (u.y + u.height) }]
        else []) ++
        ((if f.x < u.x then [{ f with width := u.x - f.x }] else []) ++
        (if u.x + u.width < f.x + f.width then
          [{ f with x := u.x + u.width, width := f.x + f.width - (u.x + u.width) }]
        else [])) ∧
      (∀ r ∈ (splitFreeNode f u).2, 0 < r.width ∧ 0 < r.height) ∧
      (splitFreeNode f u).2.length ≤ 4) := by
  constructor
  · intro hb
    refine ⟨(splitFreeNode_false_iff f u).mp hb, ?_⟩
    simp [applySplit, splitPass, hb]
  · intro hb
    by_cases hc : u.x ≥ f.x + f.width ∨ u.x + u.width ≤ f.x ∨
        u.y ≥ f.y + f.height ∨ u.y + u.height ≤ f.y
    · exfalso
      have : (splitFreeNode f u).1 = false := by simp [splitFreeNode, if_pos hc]
      rw [hb] at this
      exact Bool.true_eq_false ▸ this
    · push_neg at hc
      obtain ⟨hc1, hc2, hc3, hc4⟩ := hc
      refine ⟨?_, ?_, ?_, ?_, ?_⟩
      · intro hd
        have : (splitFreeNode f u).1 = false := (splitFreeNode_false_iff f u).mpr hd
        rw [hb] at this
        exact Bool.true_eq_false ▸ this
      · simp [applySplit, splitPass, hb]
      · have hG1 : u.x < f.x + f.width ∧ f.x < u.x + u.width := ⟨by omega, by omega⟩
        have hG2 : u.y < f.y + f.height ∧ f.y < u.y + u.height := ⟨by omega, by omega⟩
        have hne : ¬(u.x ≥ f.x + f.width ∨ u.x + u.width ≤ f.x ∨
            u.y ≥ f.y + f.height ∨ u.y + u.height ≤ f.y) := by omega
        have e_top : (f.y < u.y ∧ u.y < f.y + f.height) = (f.y < u.y) := by
          rw [eq_iff_iff]; omega
        have e_left : (f.x < u.x ∧ u.x < f.x + f.width) = (f.x < u.x) := by
          rw [eq_iff_iff]; omega
        simp only [splitFreeNode, if_neg hne, if_pos hG1, if_pos hG2, e_top, e_left]
      · intro r hr
        have hne : ¬(u.x ≥ f.x + f.width ∨ u.x + u.width ≤ f.x ∨
            u.y ≥ f.y + f.height ∨ u.y + u.height ≤ f.y) := by omega
        simp only [splitFreeNode, if_neg hne] at hr
        simp only [List.mem_append] at hr
        rcases hr with hr | hr <;> split_ifs at hr <;>
          simp only [List.mem_append, List.mem_singleton, List.not_mem_nil, or_false,
            false_or] at hr <;>
          rcases hr with rfl | rfl <;> simp <;> omega
      · have hne : ¬(u.x ≥ f.x + f.width ∨ u.x + u.width ≤ f.x ∨
            u.y ≥ f.y + f.height ∨ u.y + u.height ≤ f.y) := by omega
        simp only [splitFreeNode, if_neg hne]
        split_ifs <;> simp

theorem c7_witness :
    (0 : Int) < (⟨0, 0, 10, 10⟩ : Rect).width ∧ (0 : Int) < (⟨0, 0, 10, 10⟩ : Rect).height ∧
    (splitFreeNode ⟨0, 0, 10, 10⟩ ⟨0, 0, 2, 3⟩).1 = true ∧
    (¬ rectsDisjoint ⟨0, 0, 2, 3⟩ ⟨0, 0, 10, 10⟩ ∧
      applySplit [⟨0, 0, 10, 10⟩] ⟨0, 0, 2, 3⟩ =
        (splitFreeNode ⟨0, 0, 10, 10⟩ ⟨0, 0, 2, 3⟩).2 ∧
      (splitFreeNode ⟨0, 0, 10, 10⟩ ⟨0, 0, 2, 3⟩).2 =
        (if (⟨0, 0, 10, 10⟩ : Rect).y < (⟨0, 0, 2, 3⟩ : Rect).y then
          [{ (⟨0, 0, 10, 10⟩ : Rect) with
              height := (⟨0, 0, 2, 3⟩ : Rect).y - (⟨0, 0, 10, 10⟩ : Rect).y }] else []) ++
        (if (⟨0, 0, 2, 3⟩ : Rect).y + (⟨0, 0, 2, 3⟩ : Rect).height <
            (⟨0, 0, 10, 10⟩ : Rect).y + (⟨0, 0, 10, 10⟩ : Rect).height then
          [{ (⟨0, 0, 10, 10⟩ : Rect) with
              y := (⟨0, 0, 2, 3⟩ : Rect).y + (⟨0, 0, 2, 3⟩ : Rect).height,
              height := (⟨0, 0, 10, 10⟩ : Rect).y + (⟨0, 0, 10, 10⟩ : Rect).height - ((⟨0, 0, 2, 3⟩ : Rect).y + (⟨0, 0, 2, 3⟩ : Rect).height) }] else []) ++
        ((if (⟨0, 0, 10, 10⟩ : Rect).x < (⟨0, 0, 2, 3⟩ : Rect).x then
          [{ (⟨0, 0, 10, 10⟩ : Rect) with
              width := (⟨0, 0, 2, 3⟩ : Rect).x - (⟨0, 0, 10, 10⟩ : Rect).x }] else []) ++
        (if (⟨0, 0, 2, 3⟩ : Rect).x + (⟨0, 0, 2, 3⟩ : Rect).width <
            (⟨0, 0, 10, 10⟩ : Rect).x + (⟨0, 0, 10, 10⟩ : Rect).width then
          [{ (⟨0, 0, 10, 10⟩ : Rect) with
              x := (⟨0, 0, 2, 3⟩ : Rect).x + (⟨0, 0, 2, 3⟩ : Rect).width,
              width := (⟨0, 0, 10, 10⟩ : Rect).x + (⟨0, 0, 10, 10⟩ : Rect).width - ((⟨0, 0, 2, 3⟩ : Rect).x + (⟨0, 0, 2, 3⟩ : Rect).width) }] else [])) ∧
      (∀ r ∈ (splitFreeNode ⟨0, 0, 10, 10⟩ ⟨0, 0, 2, 3⟩).2,
        0 < r.width ∧ 0 < r.height) ∧
      (splitFreeNode ⟨0, 0, 10, 10⟩ ⟨0, 0, 2, 3⟩).2.length ≤ 4) :=
  ⟨by decide, by decide, by decide,
   (c7_split_residuals ⟨0, 0, 10, 10⟩ ⟨0, 0, 2, 3⟩ (by decide) (by decide)).2 (by decide)⟩

/-! ### pruneFreeList structure lemmas -/

theorem innerStep_sublist (x : Rect) : ∀ l : List Rect, (innerStep x l).2.Sublist l := by
  intro l
  induction l with
  | nil => simp [innerStep]
  | cons y ys ih =>
    unfold innerStep
    split_ifs with h1 h2
    · exact List.Sublist.refl _
    · exact ih.cons y
    · exact ih.cons₂ y

theorem innerStep_true_kept (x : Rect) :
    ∀ l : List Rect, (innerStep x l).1 = true →
      ∀ y ∈ (innerStep x l).2, ¬ isContainedIn x y ∧ ¬ isContainedIn y x := by
  intro l
  induction l with
  | nil => intro _ y hy; simp [innerStep] at hy
  | cons z zs ih =>
    unfold innerStep
    split_ifs with h1 h2
    · intro hb; exact absurd hb (by simp)
    · exact ih
    · intro hb y hy
      rcases List.mem_cons.mp hy with rfl | hy'
      · exact ⟨h1, h2⟩
      · exact ih hb y hy'

theorem innerStep_false_ex (x : Rect) :
    ∀ l : List Rect, (innerStep x l).1 = false →
      ∃ y ∈ (innerStep x l).2, isContainedIn x y := by
  intro l
  induction l with
  | nil => intro hb; simp [innerStep] at hb
  | cons z zs ih =>
    unfold innerStep
    split_ifs with h1 h2
    · intro _; exact ⟨z, List.mem_cons_self z zs, h1⟩
    · exact ih
    · intro hb
      obtain ⟨y, hy, hc⟩ := ih hb
      exact ⟨y, List.mem_cons_of_mem z hy, hc⟩

theorem innerStep_dropped (x : Rect) :
    ∀ l : List Rect, ∀ z ∈ l, z ∈ (innerStep x l).2 ∨ isContainedIn z x := by
  intro l
  induction l with
  | nil => intro z hz; simp at hz
  | cons y ys ih =>
    intro z hz
    unfold innerStep
    split_ifs with h1 h2
    · exact Or.inl hz
    · rcases List.mem_cons.mp hz with rfl | hz'
      · exact Or.inr h2
      · exact ih z hz'
    · rcases List.mem_cons.mp hz with rfl | hz'
      · exact Or.inl (List.mem_cons_self _ _)
      · rcases ih z hz' with hm | hc
        · exact Or.inl (List.mem_cons_of_mem y hm)
        · exact Or.inr hc

theorem innerStep_nochange (x : Rect) :
    ∀ l : List Rect, (∀ y ∈ l, ¬ isContainedIn x y ∧ ¬ isContainedIn y x) →
      innerStep x l = (true, l) := by
  intro l
  induction l with
  | nil => intro _; rfl
  | cons y ys ih =>
    intro hl
    obtain ⟨h1, h2⟩ := hl y (List.mem_cons_self y ys)
    unfold innerStep
    rw [if_neg h1, if_neg h2, ih (fun z hz => hl z (List.mem_cons_of_mem y hz))]

theorem pruneAux_sublist : ∀ (n : Nat) (l : List Rect), (pruneAux n l).Sublist l := by
  intro n
  induction n with
  | zero => intro l; rw [pruneAux]
  | succ n ih =>
    intro l
    match l with
    | [] => rw [pruneAux]
    | x :: xs =>
      unfold pruneAux
      dsimp only
      split_ifs with hb
      · exact ((ih _).trans (innerStep_sublist x xs)).cons₂ x
      · exact ((ih _).trans (innerStep_sublist x xs)).cons x

theorem pruneAux_pairwise :
    ∀ (n : Nat) (l : List Rect), l.length ≤ n →
      (pruneAux n l).Pairwise (fun a b => ¬ isContainedIn a b ∧ ¬ isContainedIn b a) := by
  intro n
  induction n with
  | zero =>
    intro l hl
    rw [Nat.le_zero, List.length_eq_zero] at hl
    subst hl
    rw [pruneAux]
    exact List.Pairwise.nil
  | succ n ih =>
    intro l hl
    match l with
    | [] => rw [pruneAux]; exact List.Pairwise.nil
    | x :: xs =>
      have hxs : xs.length ≤ n := by simpa using hl
      have hys : (innerStep x xs).2.length ≤ n :=
        le_trans (innerStep_length x xs) hxs
      unfold pruneAux
      dsimp only
      split_ifs with hb
      · rw [List.pairwise_cons]
        constructor
        · intro y hy
          exact innerStep_true_kept x xs hb y
            ((pruneAux_sublist n _).subset hy)
        · exact ih _ hys
      · exact ih _ hys

theorem pruneAux_dropped :
    ∀ (n : Nat) (l : List Rect), l.length ≤ n →
      ∀ z ∈ l, z ∈ pruneAux n l ∨ ∃ s ∈ pruneAux n l, isContainedIn z s := by
  intro n
  induction n with
  | zero =>
    intro l hl
    rw [Nat.le_zero, List.length_eq_zero] at hl
    subst hl
    intro z hz
    simp at hz
  | succ n ih =>
    intro l hl
    match l with
    | [] => intro z hz; simp at hz
    | x :: xs =>
      have hxs : xs.length ≤ n := by simpa using hl
      have hys : (innerStep x xs).2.length ≤ n :=
        le_trans (innerStep_length x xs) hxs
      intro z hz
      unfold pruneAux
      dsimp only
      split_ifs with hb
      · rcases List.mem_cons.mp hz with rfl | hz'
        · exact Or.inl (List.mem_cons_self _ _)
        · rcases innerStep_dropped x xs z hz' with hm | hc
          · rcases ih _ hys z hm with h1 | ⟨s, hs, h2⟩
            · exact Or.inl (List.mem_cons_of_mem x h1)
            · exact Or.inr ⟨s, List.mem_cons_of_mem x hs, h2⟩
          · exact Or.inr ⟨x, List.mem_cons_self _ _, hc⟩
      · have hfalse : (innerStep x xs).1 = false := Bool.not_eq_true _ ▸ hb
        obtain ⟨y0, hy0, hxy0⟩ := innerStep_false_ex x xs hfalse
        have hx_in : ∃ s ∈ pruneAux n (innerStep x xs).2, isContainedIn x s := by
          rcases ih _ hys y0 hy0 with h1 | ⟨s, hs, h2⟩
          · exact ⟨y0, h1, hxy0⟩
          · exact ⟨s, hs, isContainedIn_trans hxy0 h2⟩
        rcases List.mem_cons.mp hz with rfl | hz'
        · exact Or.inr hx_in
        · rcases innerStep_dropped x xs z hz' with hm | hc
          · exact ih _ hys z hm
          · obtain ⟨s, hs, h2⟩ := hx_in
            exact Or.inr ⟨s, hs, isContainedIn_trans hc h2⟩

theorem pruneAux_nochange :
    ∀ (n : Nat) (l : List Rect),
      l.Pairwise (fun a b => ¬ isContainedIn a b ∧ ¬ isContainedIn b a) →
      pruneAux n l = l := by
  intro n
  induction n with
  | zero => intro l _; rw [pruneAux]
  | succ n ih =>
    intro l hl
    match l with
    | [] => rw [pruneAux]
    | x :: xs =>
      rw [List.pairwise_cons] at hl
      obtain ⟨hx, hxs⟩ := hl
      unfold pruneAux
      dsimp only
      rw [innerStep_nochange x xs hx]
      simp only [if_pos]
      rw [ih xs hxs]

theorem pruneFreeList_idem (l : List Rect) :
    pruneFreeList (pruneFreeList l) = pruneFreeList l := by
  unfold pruneFreeList
  exact pruneAux_nochange _ _ (pruneAux_pairwise l.length l (le_refl _))

/-- C8: pruneFreeList is idempotent; one application returns a sublist
of its input in which no free region is contained in another (in either
direction), and it removes nothing else: every removed region was
contained in a region that is kept. -/
theorem c8_prune_idempotent_containment (l : List Rect) :
    pruneFreeList (pruneFreeList l) = pruneFreeList l ∧
    (pruneFreeList l).Sublist l ∧
    (pruneFreeList l).Pairwise (fun a b => ¬ isContainedIn a b ∧ ¬ isContainedIn b a) ∧
    (∀ r ∈ l, r ∉ pruneFreeList l → ∃ s ∈ pruneFreeList l, isContainedIn r s) := by
  refine ⟨pruneFreeList_idem l, pruneAux_sublist l.length l,
    pruneAux_pairwise l.length l (le_refl _), ?_⟩
  intro r hr hnot
  rcases pruneAux_dropped l.length l (le_refl _) r hr with h1 | h2
  · exact absurd h1 hnot
  · exact h2

theorem c8_witness :
    pruneFreeList (pruneFreeList [⟨0, 0, 1, 1⟩, ⟨0, 0, 2, 2⟩]) =
      pruneFreeList [⟨0, 0, 1, 1⟩, ⟨0, 0, 2, 2⟩] ∧
    (∃ s ∈ pruneFreeList [⟨0, 0, 1, 1⟩, ⟨0, 0, 2, 2⟩], isContainedIn ⟨0, 0, 1, 1⟩ s) :=
  ⟨(c8_prune_idempotent_containment [⟨0, 0, 1, 1⟩, ⟨0, 0, 2, 2⟩]).1,
   (c8_prune_idempotent_containment [⟨0, 0, 1, 1⟩, ⟨0, 0, 2, 2⟩]).2.2.2
     ⟨0, 0, 1, 1⟩ (by decide) (by decide)⟩

/-! ### Lexicographic score comparison (the batch selection order) -/

/-- The strict comparison `score1 < best1 || (score1 == best1 && score2 < best2)`
used by the batch insert to accept a new best candidate. -/
def lexLt (a b : Int × Int) : Prop := a.1 < b.1 ∨ (a.1 = b.1 ∧ a.2 < b.2)

instance (a b : Int × Int) : Decidable (lexLt a b) := by unfold lexLt; infer_instance

/-- Non-strict version of `lexLt`. -/
def lexLe (a b : Int × Int) : Prop := a.1 < b.1 ∨ (a.1 = b.1 ∧ a.2 ≤ b.2)

instance (a b : Int × Int) : Decidable (lexLe a b) := by unfold lexLe; infer_instance

theorem lexLe_refl (a : Int × Int) : lexLe a a := by unfold lexLe; omega

theorem lexLt_le {a b : Int × Int} (h : lexLt a b) : lexLe a b := by
  unfold lexLt at h; unfold lexLe; omega

theorem lexLe_trans {a b c : Int × Int} (h1 : lexLe a b) (h2 : lexLe b c) : lexLe a c := by
  unfold lexLe at *; omega

theorem lexLe_lexLt {a b c : Int × Int} (h1 : lexLe a b) (h2 : lexLt b c) : lexLt a c := by
  unfold lexLe at h1; unfold lexLt at *; omega

theorem lexLt_trans {a b c : Int × Int} (h1 : lexLt a b) (h2 : lexLt b c) : lexLt a c := by
  unfold lexLt at *; omega

theorem not_lexLt {a b : Int × Int} (h : ¬ lexLt a b) : lexLe b a := by
  unfold lexLt at h; unfold lexLe; omega

/-- Full characterisation of the batch selection scan `selectAux`: the
final score pair only improves lexicographically, is a lexicographic
lower bound of every scanned pending size's score pair, and the final
best entry is either the starting accumulator (untouched) or comes from
a scanned pending size whose score pair strictly improves on the
starting one. -/
theorem selectAux_nil (p : MaxRectsBinPack) (m : FreeRectChoiceHeuristic)
    (i : Nat) (acc : Int × Int × Option (Nat × Rect)) :
    selectAux p m [] i acc = acc := rfl

theorem selectAux_cons (p : MaxRectsBinPack) (m : FreeRectChoiceHeuristic)
    (r : RectSize) (rest : List RectSize) (i : Nat)
    (acc : Int × Int × Option (Nat × Rect)) :
    selectAux p m (r :: rest) i acc =
      if (scoreRect p r.width r.height m).2.1 < acc.1 ∨
          ((scoreRect p r.width r.height m).2.1 = acc.1 ∧
            (scoreRect p r.width r.height m).2.2 < acc.2.1) then
        selectAux p m rest (i + 1) ((scoreRect p r.width r.height m).2.1,
          (scoreRect p r.width r.height m).2.2,
          some (i, (scoreRect p r.width r.height m).1))
      else selectAux p m rest (i + 1) acc := rfl

theorem selectAux_spec (p : MaxRectsBinPack) (m : FreeRectChoiceHeuristic) :
    ∀ (rest : List RectSize) (i : Nat) (acc : Int × Int × Option (Nat × Rect)),
      lexLe ((selectAux p m rest i acc).1, (selectAux p m rest i acc).2.1)
        (acc.1, acc.2.1) ∧
      (∀ r ∈ rest, lexLe ((selectAux p m rest i acc).1, (selectAux p m rest i acc).2.1)
        ((scoreRect p r.width r.height m).2.1, (scoreRect p r.width r.height m).2.2)) ∧
      (selectAux p m rest i acc = acc ∨
        ∃ j, ∃ hj : j < rest.length,
          (selectAux p m rest i acc).2.2 =
            some (i + j, (scoreRect p (rest.get ⟨j, hj⟩).width
              (rest.get ⟨j, hj⟩).height m).1) ∧
          (selectAux p m rest i acc).1 =
            (scoreRect p (rest.get ⟨j, hj⟩).width (rest.get ⟨j, hj⟩).height m).2.1 ∧
          (selectAux p m rest i acc).2.1 =
            (scoreRect p (rest.get ⟨j, hj⟩).width (rest.get ⟨j, hj⟩).height m).2.2 ∧
          lexLt ((selectAux p m rest i acc).1, (selectAux p m rest i acc).2.1)
            (acc.1, acc.2.1)) := by
  intro rest
  induction rest with
  | nil =>
    intro i acc
    exact ⟨lexLe_refl _, by intro r hr; simp at hr, Or.inl rfl⟩
  | cons r rest' ih =>
    intro i acc
    by_cases hc : (scoreRect p r.width r.height m).2.1 < acc.1 ∨
        ((scoreRect p r.width r.height m).2.1 = acc.1 ∧
          (scoreRect p r.width r.height m).2.2 < acc.2.1)
    · have heq : selectAux p m (r :: rest') i acc =
          selectAux p m rest' (i + 1) ((scoreRect p r.width r.height m).2.1,
            (scoreRect p r.width r.height m).2.2,
            some (i, (scoreRect p r.width r.height m).1)) := by
        rw [selectAux_cons, if_pos hc]
      have hclt : lexLt ((scoreRect p r.width r.height m).2.1,
          (scoreRect p r.width r.height m).2.2) (acc.1, acc.2.1) := hc
      obtain ⟨ih1, ih2, ih3⟩ := ih (i + 1) ((scoreRect p r.width r.height m).2.1,
        (scoreRect p r.width r.height m).2.2, some (i, (scoreRect p r.width r.height m).1))
      rw [heq]
      refine ⟨lexLt_le (lexLe_lexLt ih1 hclt), ?_, ?_⟩
      · intro r' hr'
        rcases List.mem_cons.mp hr' with rfl | hr''
        · exact ih1
        · exact ih2 r' hr''
      · rcases ih3 with hsame | ⟨j, hj, h1, h2, h3, h4⟩
        · right
          refine ⟨0, by simp, ?_, ?_, ?_, ?_⟩
          · rw [hsame]; simp
          · rw [hsame]; simp
          · rw [hsame]; simp
          · rw [hsame]; exact hclt
        · right
          refine ⟨j + 1, by simpa using hj, ?_, ?_, ?_, ?_⟩
          · rw [h1]
            have : i + 1 + j = i + (j + 1) := by omega
            rw [this]
            rfl
          · rw [h2]; rfl
          · rw [h3]; rfl
          · exact lexLt_trans h4 hclt
    · have heq : selectAux p m (r :: rest') i acc = selectAux p m rest' (i + 1) acc := by
        rw [selectAux_cons, if_neg hc]
      have hcle : lexLe (acc.1, acc.2.1) ((scoreRect p r.width r.height m).2.1,
          (scoreRect p r.width r.height m).2.2) := not_lexLt hc
      obtain ⟨ih1, ih2, ih3⟩ := ih (i + 1) acc
      rw [heq]
      refine ⟨ih1, ?_, ?_⟩
      · intro r' hr'
        rcases List.mem_cons.mp hr' with rfl | hr''
        · exact lexLe_trans ih1 hcle
        · exact ih2 r' hr''
      · rcases ih3 with hsame | ⟨j, hj, h1, h2, h3, h4⟩
        · exact Or.inl hsame
        · right
          refine ⟨j + 1, by simpa using hj, ?_, ?_, ?_, ?_⟩
          · rw [h1]
            have : i + 1 + j = i + (j + 1) := by omega
            rw [this]
            rfl
          · rw [h2]; rfl
          · rw [h3]; rfl
          · exact h4

theorem scoreRect_contact (p : MaxRectsBinPack) (w h : Int) :
    scoreRect p w h .RectContactPointRule =
      if (findPositionForNewNodeContactPoint p w h).1.height = 0 then
        ((findPositionForNewNodeContactPoint p w h).1, intMax, intMax)
      else ((findPositionForNewNodeContactPoint p w h).1,
        -(findPositionForNewNodeContactPoint p w h).2, intMax) := rfl

theorem scoreRect_contact_fst (p : MaxRectsBinPack) (w h : Int) :
    (scoreRect p w h .RectContactPointRule).1 =
      (findPositionForNewNodeContactPoint p w h).1 := by
  rw [scoreRect_contact]; split <;> rfl

theorem scoreRect_contact_snd2 (p : MaxRectsBinPack) (w h : Int) :
    (scoreRect p w h .RectContactPointRule).2.2 = intMax := by
  rw [scoreRect_contact]; split <;> rfl

/-- C6: whenever a round of the batch insertion selects a pending size,
the selected entry's scoreRect result is a lexicographic minimum (score1
first, score2 as tie-break) over all pending sizes, and for the
ContactPoint heuristic — whose score is negated by scoreRect — the
selected placeable entry has the highest contact score among all
placeable pending sizes. -/
theorem c6_batch_round_lex_min (p : MaxRectsBinPack) (m : FreeRectChoiceHeuristic)
    (rects : List RectSize) (s1 s2 : Int) (i : Nat) (n : Rect)
    (hsel : selectBest p m rects = (s1, s2, some (i, n))) :
    ∃ hi : i < rects.length,
      n = (scoreRect p (rects.get ⟨i, hi⟩).width (rects.get ⟨i, hi⟩).height m).1 ∧
      s1 = (scoreRect p (rects.get ⟨i, hi⟩).width (rects.get ⟨i, hi⟩).height m).2.1 ∧
      s2 = (scoreRect p (rects.get ⟨i, hi⟩).width (rects.get ⟨i, hi⟩).height m).2.2 ∧
      (∀ r ∈ rects, s1 < (scoreRect p r.width r.height m).2.1 ∨
        (s1 = (scoreRect p r.width r.height m).2.1 ∧
          s2 ≤ (scoreRect p r.width r.height m).2.2)) ∧
      (m = .RectContactPointRule →
        ∀ r ∈ rects, (scoreRect p r.width r.height m).1.height ≠ 0 →
          (findPositionForNewNodeContactPoint p r.width r.height).2 ≤
            (findPositionForNewNodeContactPoint p (rects.get ⟨i, hi⟩).width
              (rects.get ⟨i, hi⟩).height).2) := by
  obtain ⟨sp1, sp2, sp3⟩ := selectAux_spec p m rects 0 (intMax, intMax, none)
  have hres : selectAux p m rects 0 (intMax, intMax, none) = (s1, s2, some (i, n)) := hsel
  rcases sp3 with hsame | ⟨j, hj, h1, h2, h3, h4⟩
  · rw [hres] at hsame
    have : (some (i, n) : Option (Nat × Rect)) = none := congrArg (fun t => t.2.2) hsame
    simp at this
  · rw [hres] at sp2 h1 h2 h3 h4
    dsimp only at sp2 h2 h3 h4
    simp only [Option.some.injEq, Prod.mk.injEq, Nat.zero_add] at h1
    obtain ⟨hij, hn⟩ := h1
    subst hij
    refine ⟨hj, hn, h2, h3, ?_, ?_⟩
    · intro r hr
      exact sp2 r hr
    · intro hm r hr hne
      subst hm
      have hs2 : s2 = intMax := by rw [h3, scoreRect_contact_snd2]
      have hlt : s1 < intMax := by
        unfold lexLt at h4
        dsimp only at h4
        omega
      have hsel1 : s1 = -(findPositionForNewNodeContactPoint p
          (rects.get ⟨i, hj⟩).width (rects.get ⟨i, hj⟩).height).2 := by
        rw [scoreRect_contact] at h2
        split_ifs at h2 with hz
        · dsimp only at h2
          exact absurd h2 (by omega)
        · exact h2
      have hrne : (findPositionForNewNodeContactPoint p r.width r.height).1.height ≠ 0 := by
        rw [scoreRect_contact_fst] at hne
        exact hne
      have hr1 : (scoreRect p r.width r.height .RectContactPointRule).2.1 =
          -(findPositionForNewNodeContactPoint p r.width r.height).2 := by
        rw [scoreRect_contact, if_neg hrne]
      have hmin := sp2 r hr
      unfold lexLe at hmin
      dsimp only at hmin
      rw [hr1, hsel1] at hmin
      omega

theorem c6_witness :
    ∃ hi : 1 < ([⟨2, 3⟩, ⟨10, 10⟩] : List RectSize).length,
      (⟨0, 0, 10, 10⟩ : Rect) = (scoreRect (init 10 10)
        (([⟨2, 3⟩, ⟨10, 10⟩] : List RectSize).get ⟨1, hi⟩).width
        (([⟨2, 3⟩, ⟨10, 10⟩] : List RectSize).get ⟨1, hi⟩).height
        .RectBestShortSideFit).1 ∧
      (0 : Int) = (scoreRect (init 10 10)
        (([⟨2, 3⟩, ⟨10, 10⟩] : List RectSize).get ⟨1, hi⟩).width
        (([⟨2, 3⟩, ⟨10, 10⟩] : List RectSize).get ⟨1, hi⟩).height
        .RectBestShortSideFit).2.1 ∧
      (0 : Int) = (scoreRect (init 10 10)
        (([⟨2, 3⟩, ⟨10, 10⟩] : List RectSize).get ⟨1, hi⟩).width
        (([⟨2, 3⟩, ⟨10, 10⟩] : List RectSize).get ⟨1, hi⟩).height
        .RectBestShortSideFit).2.2 ∧
      (∀ r ∈ ([⟨2, 3⟩, ⟨10, 10⟩] : List RectSize),
        (0 : Int) < (scoreRect (init 10 10) r.width r.height .RectBestShortSideFit).2.1 ∨
        ((0 : Int) = (scoreRect (init 10 10) r.width r.height .RectBestShortSideFit).2.1 ∧
          (0 : Int) ≤ (scoreRect (init 10 10) r.width r.height .RectBestShortSideFit).2.2)) ∧
      (FreeRectChoiceHeuristic.RectBestShortSideFit = .RectContactPointRule →
        ∀ r ∈ ([⟨2, 3⟩, ⟨10, 10⟩] : List RectSize),
          (scoreRect (init 10 10) r.width r.height .RectBestShortSideFit).1.height ≠ 0 →
          (findPositionForNewNodeContactPoint (init 10 10) r.width r.height).2 ≤
            (findPositionForNewNodeContactPoint (init 10 10)
              (([⟨2, 3⟩, ⟨10, 10⟩] : List RectSize).get ⟨1, hi⟩).width
              (([⟨2, 3⟩, ⟨10, 10⟩] : List RectSize).get ⟨1, hi⟩).height).2) :=
  c6_batch_round_lex_min (init 10 10) .RectBestShortSideFit [⟨2, 3⟩, ⟨10, 10⟩]
    0 0 1 ⟨0, 0, 10, 10⟩ (by decide)

/-! ### ContactPoint score: spec-side formulas and maximality -/

/-- The per-used-rectangle contribution of the ContactPoint score: the
1-D overlap of each touching pair of opposite edges. -/
def contactContribution (x y w h : Int) (u : Rect) : Int :=
  (if u.x = x + w ∨ u.x + u.width = x then
    commonIntervalLength u.y (u.y + u.height) y (y + h) else 0) +
  (if u.y = y + h ∨ u.y + u.height = y then
    commonIntervalLength u.x (u.x + u.width) x (x + w) else 0)

/-- The ContactPoint score as the amended claim words it: the placement
contributes its height ONCE when flush against either vertical bin edge
(or both) and its width ONCE when flush against either horizontal bin
edge, plus the edge-adjacency overlaps with every placed rectangle. -/
def contactScoreAmended (p : MaxRectsBinPack) (x y w h : Int) : Int :=
  ((if x = 0 ∨ x + w = p.binWidth then h else 0) +
    (if y = 0 ∨ y + h = p.binHeight then w else 0)) +
  (p.usedRectangles.map (contactContribution x y w h)).sum

/-- The ContactPoint score exactly as claim C9 words it: the placement
contributes its height once FOR EACH vertical bin edge it is flush
against (x = 0 and x + w = binWidth count separately) and its width once
for each horizontal bin edge, plus the same adjacency overlaps. -/
def contactScoreClaimed (p : MaxRectsBinPack) (x y w h : Int) : Int :=
  (if x = 0 then h else 0) + (if x + w = p.binWidth then h else 0) +
  (if y = 0 then w else 0) + (if y + h = p.binHeight then w else 0) +
  (p.usedRectangles.map (contactContribution x y w h)).sum

theorem contact_fold_helper (x y w h : Int) :
    ∀ (l : List Rect) (a : Int),
      l.foldl (fun score u =>
        let score1 :=
          if u.x = x + w ∨ u.x + u.width = x then
            score + commonIntervalLength u.y (u.y + u.height) y (y + h)
          else score
        if u.y = y + h ∨ u.y + u.height = y then
          score1 + commonIntervalLength u.x (u.x + u.width) x (x + w)
        else score1) a
      = a + (l.map (contactContribution x y w h)).sum := by
  intro l
  induction l with
  | nil => intro a; simp
  | cons u rest ih =>
    intro a
    rw [List.foldl_cons, ih, List.map_cons, List.sum_cons]
    simp only [contactContribution]
    split_ifs <;> omega

theorem contactPointScoreNode_eq_amended (p : MaxRectsBinPack) (x y w h : Int) :
    contactPointScoreNode p x y w h = contactScoreAmended p x y w h := by
  unfold contactPointScoreNode contactScoreAmended
  exact contact_fold_helper x y w h p.usedRectangles _

theorem cpStep_ge (p : MaxRectsBinPack) (w h : Int) (acc : Rect × Int) (f : Rect) :
    acc.2 ≤ (cpStep p w h acc f).2 := by
  simp only [cpStep]
  split_ifs <;> (try dsimp only) <;> omega

theorem cp_fold_ge (p : MaxRectsBinPack) (w h : Int) :
    ∀ (l : List Rect) (acc : Rect × Int), acc.2 ≤ (l.foldl (cpStep p w h) acc).2 := by
  intro l
  induction l with
  | nil => intro acc; exact le_refl _
  | cons f rest ih =>
    intro acc
    rw [List.foldl_cons]
    exact le_trans (cpStep_ge p w h acc f) (ih (cpStep p w h acc f))

theorem cpStep_cand_up (p : MaxRectsBinPack) (w h : Int) (acc : Rect × Int) (f : Rect)
    (hf : UpFit w h f) : contactPointScoreNode p f.x f.y w h ≤ (cpStep p w h acc f).2 := by
  obtain ⟨h1, h2⟩ := hf
  simp only [cpStep, if_pos (And.intro h1 h2)]
  split_ifs <;> (try dsimp only) <;> omega

theorem cpStep_cand_flip (p : MaxRectsBinPack) (w h : Int) (acc : Rect × Int) (f : Rect)
    (hf : FlipFit w h f) : contactPointScoreNode p f.x f.y h w ≤ (cpStep p w h acc f).2 := by
  obtain ⟨h1, h2⟩ := hf
  simp only [cpStep]
  split_ifs <;> (try dsimp only) <;> omega

theorem cp_fold_cand (p : MaxRectsBinPack) (w h : Int) :
    ∀ (l : List Rect) (acc : Rect × Int), ∀ f ∈ l,
      (UpFit w h f → contactPointScoreNode p f.x f.y w h ≤ (l.foldl (cpStep p w h) acc).2) ∧
      (FlipFit w h f → contactPointScoreNode p f.x f.y h w ≤ (l.foldl (cpStep p w h) acc).2) := by
  intro l
  induction l with
  | nil => intro acc f hf; simp at hf
  | cons g rest ih =>
    intro acc f hf
    rw [List.foldl_cons]
    rcases List.mem_cons.mp hf with rfl | hf'
    · exact ⟨fun hu => le_trans (cpStep_cand_up p w h acc f hu) (cp_fold_ge p w h rest _),
        fun hfl => le_trans (cpStep_cand_flip p w h acc f hfl) (cp_fold_ge p w h rest _)⟩
    · exact ih (cpStep p w h acc g) f hf'

/-- C9 counterexample: in an empty 4-by-4 bin, a full-width placement at
the origin is flush against both vertical bin edges and the bottom edge;
the claim's per-edge formula yields 2 + 2 + 4 = 8, but the code adds the
height only once for the disjunctive vertical-edge test and returns
2 + 4 = 6. -/
theorem c9_counterexample :
    contactPointScoreNode (init 4 4) 0 0 4 2 = 6 ∧
    contactScoreClaimed (init 4 4) 0 0 4 2 = 8 ∧
    contactPointScoreNode (init 4 4) 0 0 4 2 ≠ contactScoreClaimed (init 4 4) 0 0 4 2 := by
  decide

/-- C9 (amended): the ContactPoint score equals the placement's
edge-touch length with the bin boundary counted once per axis (height
once if flush against either vertical edge, width once if flush against
either horizontal edge) plus the 1-D overlap lengths with adjacent edges
of already-placed rectangles; among all qualifying free-region and
orientation combinations the returned placement achieves the maximal
such score. -/
theorem c9_amended_contact_score (p : MaxRectsBinPack) (x y w h : Int) :
    contactPointScoreNode p x y w h = contactScoreAmended p x y w h ∧
    (∀ f ∈ p.freeRectangles,
      (UpFit w h f → contactPointScoreNode p f.x f.y w h ≤
        (findPositionForNewNodeContactPoint p w h).2) ∧
      (FlipFit w h f → contactPointScoreNode p f.x f.y h w ≤
        (findPositionForNewNodeContactPoint p w h).2)) ∧
    ((findPositionForNewNodeContactPoint p w h).2 ≠ -1 →
      ∃ f ∈ p.freeRectangles,
        (findPositionForNewNodeContactPoint p w h =
          (⟨f.x, f.y, w, h⟩, contactPointScoreNode p f.x f.y w h) ∧ UpFit w h f) ∨
        (findPositionForNewNodeContactPoint p w h =
          (⟨f.x, f.y, h, w⟩, contactPointScoreNode p f.x f.y h w) ∧ FlipFit w h f)) := by
  refine ⟨contactPointScoreNode_eq_amended p x y w h, ?_, ?_⟩
  · intro f hf
    exact cp_fold_cand p w h p.freeRectangles (⟨0, 0, 0, 0⟩, -1) f hf
  · intro hne
    rcases foldl_acc_sound (cpStep p w h)
        (fun a f => (a = (⟨f.x, f.y, w, h⟩, contactPointScoreNode p f.x f.y w h) ∧
          UpFit w h f) ∨
          (a = (⟨f.x, f.y, h, w⟩, contactPointScoreNode p f.x f.y h w) ∧ FlipFit w h f))
        (fun acc f => cpStep_cases p w h acc f) p.freeRectangles
        (⟨0, 0, 0, 0⟩, -1) with h1 | ⟨f, hf, h2⟩
    · exact absurd (congrArg (fun t => t.2) h1) hne
    · exact ⟨f, hf, h2⟩

theorem c9_amended_witness :
    contactPointScoreNode (init 4 4) 0 0 2 3 = contactScoreAmended (init 4 4) 0 0 2 3 ∧
    contactPointScoreNode (init 4 4) 0 0 2 3 ≤
      (findPositionForNewNodeContactPoint (init 4 4) 2 3).2 ∧
    (∃ f ∈ (init 4 4).freeRectangles,
      (findPositionForNewNodeContactPoint (init 4 4) 2 3 =
        (⟨f.x, f.y, 2, 3⟩, contactPointScoreNode (init 4 4) f.x f.y 2 3) ∧
          UpFit 2 3 f) ∨
      (findPositionForNewNodeContactPoint (init 4 4) 2 3 =
        (⟨f.x, f.y, 3, 2⟩, contactPointScoreNode (init 4 4) f.x f.y 3 2) ∧
          FlipFit 2 3 f)) :=
  ⟨(c9_amended_contact_score (init 4 4) 0 0 2 3).1,
   ((c9_amended_contact_score (init 4 4) 0 0 2 3).2.1 ⟨0, 0, 4, 4⟩ (by decide)).1 (by decide),
   (c9_amended_contact_score (init 4 4) 0 0 2 3).2.2 (by decide)⟩

end rbp
